import Mathlib

/-!
# ImNodeFlow: pin / link bookkeeping and node pin sets

A shallow embedding of `src/ImNodeFlow.inl`.

* Pin objects and node objects are named by natural numbers (their addresses).
* A `Link` object is named by an allocation number together with its two
  endpoints, which are fixed by the constructor `Link(left, right, inf)`.
* `InPin<T>::m_links` is a vector of `shared_ptr<Link>` (an entry may be null,
  the source tests `m_link && ...`), `OutPin<T>::m_links` is a vector of
  `weak_ptr<Link>` (the source calls `expired()` and `lock()` on its entries).
* The only owning references to a link are the entries of the link list of its
  destination pin, so a weak reference is expired exactly when that list no
  longer holds the link.
* A node is the four pin sets of `BaseNode`; a pin object in them carries its
  address, its identifier and its display name.
* The registry of the handler and the lists of the output pins refer to links
  without owning them: an entry whose link object is gone holds no link
  (`Graph.registered`, `OutPin.holds`).
* `ImNodeFlow.h` is not among the sources. What the embedded functions call from
  it is modelled from the spec (`ImNodeFlow::addLink`, `InPin<T>::deleteLink`,
  `isConnected`, the teardown of a released pin) or taken as a parameter
  (`InPin<T>::val`, `std::hash`), and says so in its doc comment.
* `smart_bezier` is embedded over the operations of `float` (`FloatArith`), of
  which nothing is assumed, so that what is proved of it for all inputs holds
  with the rounding of the machine. The statements about sample inputs use exact
  arithmetic (a linearly ordered field, with `sqrtf`, `sqrt` and `pow` as
  parameters), which is the same embedding at operations that do not round.
  `imgui_bezier_math.h` is not among the sources either; its projection on a
  cubic is modelled from the spec.
-/

namespace ImFlow

/-! ## Data model -/

/-- Direction of a pin: the value returned by `Pin::getType()`. -/
inductive PinType where
  | PinType_Input
  | PinType_Output
  deriving DecidableEq, Repr

/-- A link object: allocation number, source pin `left()` and destination pin `right()`. -/
structure Link where
  id : Nat
  left : Nat
  right : Nat
  deriving DecidableEq, Repr

/-- The mutable part of a graph: every pin's link list, the handler's link registry,
the allocation counter for link objects, and two logs of calls that leave the modelled
code (the link-creation hook, and the `deleteLink` notifications sent to destination pins). -/
@[ext]
structure Graph where
  /-- Contents of `InPin<T>::m_links` of each pin (owning references, possibly null). -/
  inLinks : Nat → List (Option Link)
  /-- Contents of `OutPin<T>::m_links` of each pin (weak references). -/
  outLinks : Nat → List Link
  /-- The link registry of the handler, filled by `ImNodeFlow::addLink`. -/
  registry : List Link
  /-- Links passed to `onLinkCreateHook`, oldest first. -/
  hookCalls : List Link
  /-- Calls `right()->deleteLink(link)` made by output pins: (destination pin, link). -/
  notified : List (Nat × Link)
  /-- Number of link objects allocated so far. -/
  nextId : Nat

/-- The part of the pins that no function of the file changes. -/
structure Pins where
  /-- Value of `getType()` of each pin. -/
  getType : Nat → PinType
  /-- Value of `getParent()` of each pin: the owning node. -/
  getParent : Nat → Nat
  /-- Field `m_allowSelfConnection` of each input pin. -/
  m_allowSelfConnection : Nat → Bool
  /-- Field `m_filter` of each input pin, called as `m_filter(other, this)`;
  the predicate may inspect the graph. -/
  m_filter : Nat → Graph → Nat → Nat → Bool
  /-- Whether the handler has an `onLinkCreateHook`. -/
  onLinkCreateHook : Bool

/-- Replace the link list of one input pin. -/
def Graph.setIn (g : Graph) (pin : Nat) (l : List (Option Link)) : Graph :=
  { g with inLinks := Function.update g.inLinks pin l }

/-- Replace the link list of one output pin. -/
def Graph.setOut (g : Graph) (pin : Nat) (l : List Link) : Graph :=
  { g with outLinks := Function.update g.outLinks pin l }

/-- Result of `weak_ptr<Link>::expired()`: the link object is gone when the list of its
destination pin, its only owner, holds it no more. -/
def Graph.expired (g : Graph) (l : Link) : Bool :=
  !(g.inLinks l.right).contains (some l)

/-- Test of the duplicate loop of `InPin<T>::createLink`: `m_link && m_link->left() == other`. -/
def linkFrom (other : Nat) (m_link : Option Link) : Bool :=
  match m_link with
  | some l => decide (l.left = other)
  | none => false

/-! ## Pins -/

/-- Embedding of `OutPin<T>::addLink`: `m_links.push_back(link)`. -/
def OutPin.addLink (self : Nat) (link : Link) (g : Graph) : Graph :=
  g.setOut self (g.outLinks self ++ [link])

/-- Modelled from the spec: `ImNodeFlow::addLink` is declared in `ImNodeFlow.h`, which is
not among the sources; the spec says that it "registers the link with the graph". -/
def ImNodeFlow.addLink (link : Link) (g : Graph) : Graph :=
  { g with registry := g.registry ++ [link] }

/-- Embedding of `InPin<T>::createLink(Pin* other)`; `self` is `this`. -/
def InPin.createLink (P : Pins) (self other : Nat) (g : Graph) : Graph :=
  if other = self ∨ P.getType other = PinType.PinType_Input then g
  else if P.getParent self = P.getParent other ∧ P.m_allowSelfConnection self = false then g
  else if (g.inLinks self).any (linkFrom other) = true then g
  else if P.m_filter self g other self = false then g
  else
    let m_link : Link := ⟨g.nextId, other, self⟩
    let g1 := { g.setIn self (g.inLinks self ++ [some m_link]) with nextId := g.nextId + 1 }
    let g2 := OutPin.addLink other m_link g1
    let g3 := ImNodeFlow.addLink m_link g2
    if P.onLinkCreateHook = true then { g3 with hookCalls := g3.hookCalls ++ [m_link] } else g3

/-- Embedding of `OutPin<T>::createLink(Pin* other)`: after its two tests it calls
`other->createLink(this)`, which is `InPin<T>::createLink` since `other` is not an output pin. -/
def OutPin.createLink (P : Pins) (self other : Nat) (g : Graph) : Graph :=
  if other = self ∨ P.getType other = PinType.PinType_Output then g
  else InPin.createLink P other self g

/-- The virtual call `X->createLink(Y)`, resolved by the direction of `X`. -/
def Pin.createLink (P : Pins) (X Y : Nat) (g : Graph) : Graph :=
  match P.getType X with
  | PinType.PinType_Input => InPin.createLink P X Y g
  | PinType.PinType_Output => OutPin.createLink P X Y g

/-- Every link held anywhere in the graph was allocated before the current counter. -/
def Graph.Allocated (g : Graph) : Prop :=
  (∀ p l, some l ∈ g.inLinks p → l.id < g.nextId) ∧
  (∀ p l, l ∈ g.outLinks p → l.id < g.nextId) ∧
  (∀ l, l ∈ g.registry → l.id < g.nextId)

/-- Number of entries of a list of an input pin that hold a link from `A` to `B`. -/
def pairCount (A B : Nat) (l : List (Option Link)) : Nat :=
  l.countP (fun e => match e with
    | some k => decide (k.left = A) && decide (k.right = B)
    | none => false)

/-- The state built by the accepting branch of `InPin<T>::createLink`. -/
def linked (P : Pins) (self other : Nat) (g : Graph) : Graph :=
  { inLinks := Function.update g.inLinks self (g.inLinks self ++ [some ⟨g.nextId, other, self⟩])
    outLinks := Function.update g.outLinks other (g.outLinks other ++ [⟨g.nextId, other, self⟩])
    registry := g.registry ++ [⟨g.nextId, other, self⟩]
    hookCalls := g.hookCalls ++ (if P.onLinkCreateHook = true then [⟨g.nextId, other, self⟩] else [])
    notified := g.notified
    nextId := g.nextId + 1 }


/-! ## Link removal -/

/-- Modelled from the spec: `InPin<T>::deleteLink(const Link*)` is declared in
`ImNodeFlow.h`, which is not among the sources; the spec says that the destination pin is
notified "to also drop its reference". The call is recorded in `notified`. -/
def InPin.deleteLink (self : Nat) (link : Link) (g : Graph) : Graph :=
  { g with
    inLinks := Function.update g.inLinks self ((g.inLinks self).filter (fun e => decide (e ≠ some link)))
    notified := g.notified ++ [(self, link)] }

/-- Number of values of an `unsigned int`. -/
def UINT_SIZE : Nat := 4294967296

/-- The statement `i--` on an `unsigned int`. -/
def uintDec (i : Nat) : Nat := (i + (UINT_SIZE - 1)) % UINT_SIZE

/-- The statement `i++` on an `unsigned int`. -/
def uintInc (i : Nat) : Nat := (i + 1) % UINT_SIZE

/-- The `for` loop of `OutPin<T>::deleteLink(const Link* link)`, entered at the test
`i < m_links.size()`: the lookup `[i]?` fails exactly when that test fails, and otherwise
gives `m_links[i]`. Every iteration uses one unit of fuel and `none` means that the fuel
ran out. The call `m_link.lock()->right()->deleteLink(...)` goes to the destination pin,
which is an input pin. -/
def OutPin.deleteLinkLoop (self : Nat) (link : Link) : Nat → Nat → Graph → Option Graph
  | 0, _, _ => none
  | fuel + 1, i, g =>
    match (g.outLinks self)[i]? with
    | none => some g
    | some m_link =>
      if g.expired m_link = true then
        OutPin.deleteLinkLoop self link fuel (uintInc (uintDec i))
          (g.setOut self ((g.outLinks self).eraseIdx i))
      else if m_link = link then
        OutPin.deleteLinkLoop self link fuel (uintInc (uintDec i))
          ((InPin.deleteLink m_link.right m_link g).setOut self
            (((InPin.deleteLink m_link.right m_link g).outLinks self).eraseIdx i))
      else
        OutPin.deleteLinkLoop self link fuel (uintInc i) g

/-- Embedding of `OutPin<T>::deleteLink(const Link* link)`: the loop starts at `i = 0`. -/
def OutPin.deleteLink (fuel : Nat) (self : Nat) (link : Link) (g : Graph) : Option Graph :=
  OutPin.deleteLinkLoop self link fuel 0 g

/-- One iteration of the range-for loop of `OutPin<T>::deleteLinks`; the assignment
`m_link = {}` only touches the entry, and the whole vector is cleared after the loop. -/
def OutPin.deleteLinksStep (g : Graph) (m_link : Link) : Graph :=
  if g.expired m_link = true then g
  else InPin.deleteLink m_link.right m_link g

/-- Embedding of `OutPin<T>::deleteLinks()`. -/
def OutPin.deleteLinks (self : Nat) (g : Graph) : Graph :=
  ((g.outLinks self).foldl OutPin.deleteLinksStep g).setOut self []

/-- The predicate that an entry of an output pin survives `deleteLink(link)`:
it is not expired and does not refer to `link`. -/
def keeps (g : Graph) (link : Link) (e : Link) : Bool :=
  !g.expired e && decide (e ≠ link)

/-- The state in which the loop of `OutPin<T>::deleteLink(link)` ends when it is at an index
where the entries `pre` before the index have been kept and the entries `rest` are still
to be examined, written without a loop. -/
def afterLoop (self : Nat) (link : Link) (pre rest : List Link) (g : Graph) : Graph :=
  { inLinks :=
      if link ∈ rest ∧ g.expired link = false then
        Function.update g.inLinks link.right
          ((g.inLinks link.right).filter (fun e => decide (e ≠ some link)))
      else g.inLinks
    outLinks := Function.update g.outLinks self (pre ++ rest.filter (keeps g link))
    registry := g.registry
    hookCalls := g.hookCalls
    notified :=
      g.notified ++ (if link ∈ rest ∧ g.expired link = false then [(link.right, link)] else [])
    nextId := g.nextId }

/-- The state that `OutPin<T>::deleteLink(link)` produces from `g`, written without a loop. -/
def afterDeleteLink (self : Nat) (link : Link) (g : Graph) : Graph :=
  afterLoop self link [] (g.outLinks self) g

/-! ## Reachable graphs -/

/-- The graph without any link. -/
def emptyGraph : Graph where
  inLinks := fun _ => []
  outLinks := fun _ => []
  registry := []
  hookCalls := []
  notified := []
  nextId := 0

/-- The input pin of a pair of pins given to `createLink`: the receiver when it is an
input pin, the argument otherwise. -/
def inputOf (P : Pins) (X Y : Nat) : Nat :=
  if P.getType X = PinType.PinType_Input then X else Y

/-- The other pin of the pair, which the input pin sees as the source of the link. -/
def sourceOf (P : Pins) (X Y : Nat) : Nat :=
  if P.getType X = PinType.PinType_Input then Y else X

/-! ## Nodes -/

/-- A pin object as a node holds it: its address (which names its link list in a `Graph`),
its identifier `getUid()` and its display name. Filter and style are left out. -/
structure Pin where
  addr : Nat
  uid : Nat
  name : String
  deriving DecidableEq, Repr

/-- The pin sets of a `BaseNode`: `m_ins`, `m_outs`, and the dynamic sets whose entries
pair a liveness marker with a pin. -/
structure BaseNode where
  m_ins : List Pin
  m_outs : List Pin
  m_dynamicIns : List (Int × Pin)
  m_dynamicOuts : List (Int × Pin)
  deriving DecidableEq, Repr

/-- Embedding of `BaseNode::addIN_uid`; `hash` is `std::hash<U>` and `addr` is the address
of the pin object that `make_shared` allocates. Returns the node and the new pin. -/
def BaseNode.addIN_uid {U : Type} (hash : U → Nat) (uid : U) (name : String) (addr : Nat)
    (n : BaseNode) : BaseNode × Pin :=
  let h := hash uid
  let p : Pin := ⟨addr, h, name⟩
  ({ n with m_ins := n.m_ins ++ [p] }, p)

/-- Embedding of `BaseNode::addOUT_uid`. -/
def BaseNode.addOUT_uid {U : Type} (hash : U → Nat) (uid : U) (name : String) (addr : Nat)
    (n : BaseNode) : BaseNode × Pin :=
  let h := hash uid
  let p : Pin := ⟨addr, h, name⟩
  ({ n with m_outs := n.m_outs ++ [p] }, p)

/-- The loop of `BaseNode::dropIN` and `BaseNode::dropOUT`: erase the first pin whose
identifier is `h` and return. -/
def dropLoop (h : Nat) : List Pin → List Pin
  | [] => []
  | p :: rest => if p.uid = h then rest else p :: dropLoop h rest

/-- Embedding of `BaseNode::dropIN`. -/
def BaseNode.dropIN {U : Type} (hash : U → Nat) (uid : U) (n : BaseNode) : BaseNode :=
  { n with m_ins := dropLoop (hash uid) n.m_ins }

/-- Embedding of `BaseNode::dropOUT`. -/
def BaseNode.dropOUT {U : Type} (hash : U → Nat) (uid : U) (n : BaseNode) : BaseNode :=
  { n with m_outs := dropLoop (hash uid) n.m_outs }

/-- The loop of `BaseNode::showIN_uid` and `BaseNode::showOUT_uid` over a dynamic set: at the
first entry whose pin has identifier `h` the marker is set to `mark` and the pin is
returned; `none` when the loop ends without a match. -/
def showLoop (mark : Int) (h : Nat) : List (Int × Pin) → Option (List (Int × Pin) × Pin)
  | [] => none
  | p :: rest =>
    if p.2.uid = h then some ((mark, p.2) :: rest, p.2)
    else
      match showLoop mark h rest with
      | some (l, q) => some (p :: l, q)
      | none => none

/-- Embedding of `BaseNode::showIN_uid`; `val` is `InPin<T>::val()`, which is declared in
`ImNodeFlow.h`, and `addr` is the address of the pin object allocated when no entry
matches. Returns the node and the value. -/
def BaseNode.showIN_uid {U T : Type} (hash : U → Nat) (val : Pin → T) (uid : U) (name : String)
    (addr : Nat) (n : BaseNode) : BaseNode × T :=
  let h := hash uid
  match showLoop 1 h n.m_dynamicIns with
  | some (l, q) => ({ n with m_dynamicIns := l }, val q)
  | none =>
    ({ n with m_dynamicIns := n.m_dynamicIns ++ [(1, ⟨addr, h, name⟩)] }, val ⟨addr, h, name⟩)

/-- Embedding of `BaseNode::showOUT_uid`. -/
def BaseNode.showOUT_uid {U : Type} (hash : U → Nat) (uid : U) (name : String)
    (addr : Nat) (n : BaseNode) : BaseNode :=
  let h := hash uid
  match showLoop 2 h n.m_dynamicOuts with
  | some (l, _) => { n with m_dynamicOuts := l }
  | none => { n with m_dynamicOuts := n.m_dynamicOuts ++ [(2, ⟨addr, h, name⟩)] }

/-- Embedding of `BaseNode::inPin`: `find_if` over `m_ins`, then the assertion
`it != m_ins.end()`, whose failure is the error. -/
def BaseNode.inPin {U : Type} (hash : U → Nat) (uid : U) (n : BaseNode) : Except String Pin :=
  let h := hash uid
  match n.m_ins.find? (fun p => decide (p.uid = h)) with
  | some p => Except.ok p
  | none => Except.error "Pin UID not found!"

/-- Embedding of `BaseNode::outPin`. -/
def BaseNode.outPin {U : Type} (hash : U → Nat) (uid : U) (n : BaseNode) : Except String Pin :=
  let h := hash uid
  match n.m_outs.find? (fun p => decide (p.uid = h)) with
  | some p => Except.ok p
  | none => Except.error "Pin UID not found!"

/-- Number of entries of a dynamic set whose pin has identifier `h`. -/
def countUid (h : Nat) (l : List (Int × Pin)) : Nat :=
  l.countP (fun e => decide (e.2.uid = h))

/-- Repeated calls of `showIN_uid` with one key; each call comes with the name and the
address it would use for a new pin. -/
def showIN_many {U T : Type} (hash : U → Nat) (val : Pin → T) (uid : U) :
    List (String × Nat) → BaseNode → BaseNode
  | [], n => n
  | a :: rest, n => showIN_many hash val uid rest (BaseNode.showIN_uid hash val uid a.1 a.2 n).1

/-- Repeated calls of `showOUT_uid` with one key. -/
def showOUT_many {U : Type} (hash : U → Nat) (uid : U) :
    List (String × Nat) → BaseNode → BaseNode
  | [], n => n
  | a :: rest, n => showOUT_many hash uid rest (BaseNode.showOUT_uid hash uid a.1 a.2 n)

/-- The dynamic set after one call of `showIN_uid` (`mark` 1) or `showOUT_uid` (`mark` 2)
that looks for identifier `h` and would allocate the pin `fresh`. -/
def shown (mark : Int) (h : Nat) (fresh : Pin) (l : List (Int × Pin)) : List (Int × Pin) :=
  match showLoop mark h l with
  | some (l1, _) => l1
  | none => l ++ [(mark, fresh)]

/-- Modelled from the spec: `isConnected()` is declared in `ImNodeFlow.h`, which is not among
the sources; the spec says that it is "true iff the pin's link list is non-empty". -/
def OutPin.isConnected (self : Nat) (g : Graph) : Bool :=
  !(g.outLinks self).isEmpty

/-- The entries of a list without repetition, each one at the place of its first
occurrence. -/
def firsts : List Link → List Link
  | [] => []
  | k :: rest => k :: (firsts rest).filter (fun x => decide (x ≠ k))

/-! ## Curve geometry -/

/-- The vector `ImVec2` of Dear ImGui over a number type `F` that stands for `float`. -/
structure ImVec2 (F : Type) where
  x : F
  y : F
  deriving DecidableEq, Repr

/-- Operator `+` of `ImVec2`: componentwise. -/
instance {F : Type} [Add F] : Add (ImVec2 F) := ⟨fun a b => ⟨a.x + b.x, a.y + b.y⟩⟩

/-- Operator `-` of `ImVec2`: componentwise. -/
instance {F : Type} [Sub F] : Sub (ImVec2 F) := ⟨fun a b => ⟨a.x - b.x, a.y - b.y⟩⟩

/-- Embedding of `smart_bezier` in exact arithmetic: the control points `p11` and `p22` that
it passes to `AddBezierCubic(p1, p11, p22, p2, ...)`. The type `float` is modelled by a
linearly ordered field `F` and `sqrtf` is a parameter. It is `FloatArith.smart_bezier` at
the operations `exactArith` (theorem `smart_bezier_exactArith`), and so gives the result of
the source on the inputs for which no operation of the source rounds. -/
def smart_bezier {F : Type} [LinearOrderedField F] (sqrtf : F → F) (p1 p2 : ImVec2 F) :
    ImVec2 F × ImVec2 F :=
  let distance := sqrtf ((p2.x - p1.x) * (p2.x - p1.x) + (p2.y - p1.y) * (p2.y - p1.y))
  let delta := distance * 0.45
  let minRight : F := 80
  let vert : F := 0
  let horizontalDist := p1.x - p2.x
  let verticalDist := |p2.y - p1.y|
  if horizontalDist > verticalDist ∧ verticalDist < 60 then
    let arcHeight := 0.15 * distance + 10
    let vert := arcHeight
    let rightward := max minRight (delta * 0.3)
    (p1 + ⟨rightward, vert⟩, p2 + ⟨-rightward, vert⟩)
  else if p2.x ≥ p1.x then
    (p1 + ⟨delta, vert⟩, p2 - ⟨delta, vert⟩)
  else
    let arcHeight := 0.35 * distance + 30
    let rightward := max minRight (delta * 0.4)
    let vert :=
      if verticalDist < 40 then (if p2.y ≥ p1.y then arcHeight else -arcHeight)
      else (if p2.y > p1.y then arcHeight else -arcHeight)
    (p1 + ⟨rightward, vert⟩, p2 - ⟨rightward, vert⟩)

/-- The operations on `float` that `smart_bezier` uses, each with the result that the
machine gives it, rounding included. Nothing is assumed about them. -/
structure FloatArith (F : Type) where
  /-- The value of a decimal literal such as `0.45f`. -/
  lit : ℚ → F
  /-- Operator `+`. -/
  add : F → F → F
  /-- Binary operator `-`. -/
  sub : F → F → F
  /-- Operator `*`. -/
  mul : F → F → F
  /-- Unary operator `-`. -/
  neg : F → F
  /-- Operator `<`. -/
  lt : F → F → Bool
  /-- Operator `>`. -/
  gt : F → F → Bool
  /-- Operator `>=`. -/
  ge : F → F → Bool
  /-- Library function `fabsf`. -/
  fabsf : F → F
  /-- Library function `fmaxf`. -/
  fmaxf : F → F → F
  /-- Library function `sqrtf`. -/
  sqrtf : F → F

/-- Operator `+` of `ImVec2` on `float` components. -/
def FloatArith.vadd {F : Type} (A : FloatArith F) (a b : ImVec2 F) : ImVec2 F :=
  ⟨A.add a.x b.x, A.add a.y b.y⟩

/-- Operator `-` of `ImVec2` on `float` components. -/
def FloatArith.vsub {F : Type} (A : FloatArith F) (a b : ImVec2 F) : ImVec2 F :=
  ⟨A.sub a.x b.x, A.sub a.y b.y⟩

/-- Embedding of `smart_bezier` over the operations of `float`: the control points `p11`
and `p22` that it passes to `AddBezierCubic(p1, p11, p22, p2, ...)`. -/
def FloatArith.smart_bezier {F : Type} (A : FloatArith F) (p1 p2 : ImVec2 F) :
    ImVec2 F × ImVec2 F :=
  let distance := A.sqrtf (A.add (A.mul (A.sub p2.x p1.x) (A.sub p2.x p1.x))
    (A.mul (A.sub p2.y p1.y) (A.sub p2.y p1.y)))
  let delta := A.mul distance (A.lit 0.45)
  let minRight := A.lit 80
  let vert := A.lit 0
  let horizontalDist := A.sub p1.x p2.x
  let verticalDist := A.fabsf (A.sub p2.y p1.y)
  if (A.gt horizontalDist verticalDist && A.lt verticalDist (A.lit 60)) = true then
    let arcHeight := A.add (A.mul (A.lit 0.15) distance) (A.lit 10)
    let vert := arcHeight
    let rightward := A.fmaxf minRight (A.mul delta (A.lit 0.3))
    (A.vadd p1 ⟨rightward, vert⟩, A.vadd p2 ⟨A.neg rightward, vert⟩)
  else if A.ge p2.x p1.x = true then
    (A.vadd p1 ⟨delta, vert⟩, A.vsub p2 ⟨delta, vert⟩)
  else
    let arcHeight := A.add (A.mul (A.lit 0.35) distance) (A.lit 30)
    let rightward := A.fmaxf minRight (A.mul delta (A.lit 0.4))
    let vert :=
      if A.lt verticalDist (A.lit 40) = true then
        (if A.ge p2.y p1.y = true then arcHeight else A.neg arcHeight)
      else (if A.gt p2.y p1.y = true then arcHeight else A.neg arcHeight)
    (A.vadd p1 ⟨rightward, vert⟩, A.vsub p2 ⟨rightward, vert⟩)

/-- The value of the local `distance` of `smart_bezier`. -/
def FloatArith.distance {F : Type} (A : FloatArith F) (p1 p2 : ImVec2 F) : F :=
  A.sqrtf (A.add (A.mul (A.sub p2.x p1.x) (A.sub p2.x p1.x))
    (A.mul (A.sub p2.y p1.y) (A.sub p2.y p1.y)))

/-- The value of the local `horizontalDist` of `smart_bezier`. -/
def FloatArith.horizontalDist {F : Type} (A : FloatArith F) (p1 p2 : ImVec2 F) : F :=
  A.sub p1.x p2.x

/-- The value of the local `verticalDist` of `smart_bezier`. -/
def FloatArith.verticalDist {F : Type} (A : FloatArith F) (p1 p2 : ImVec2 F) : F :=
  A.fabsf (A.sub p2.y p1.y)

/-- The value that the first branch of `smart_bezier` gives the local `vert`:
`0.15f * distance + 10.0f`. -/
def FloatArith.sideVert {F : Type} (A : FloatArith F) (p1 p2 : ImVec2 F) : F :=
  A.add (A.mul (A.lit 0.15) (A.distance p1 p2)) (A.lit 10)

/-- The value of the local `rightward` of the first branch of `smart_bezier`:
`fmaxf(minRight, delta * 0.3f)`. -/
def FloatArith.sideRightward {F : Type} (A : FloatArith F) (p1 p2 : ImVec2 F) : F :=
  A.fmaxf (A.lit 80) (A.mul (A.mul (A.distance p1 p2) (A.lit 0.45)) (A.lit 0.3))

/-- The operations of a linearly ordered field, none of which rounds, with `sqrtf` given. -/
def exactArith {F : Type} [LinearOrderedField F] (sqrtf : F → F) : FloatArith F where
  lit := fun q => (q : F)
  add := fun a b => a + b
  sub := fun a b => a - b
  mul := fun a b => a * b
  neg := fun a => -a
  lt := fun a b => decide (a < b)
  gt := fun a b => decide (a > b)
  ge := fun a b => decide (a ≥ b)
  fabsf := fun a => |a|
  fmaxf := fun a b => max a b
  sqrtf := sqrtf

/-- The control points `p11` and `p22` that `smart_bezier_collider` computes before its
`return`, as the pair `(p11, p22)`; `sqrt` and `pow` are parameters. -/
def smart_bezier_collider_points {F : Type} [LinearOrderedField F] (sqrt : F → F)
    (pow : F → F → F) (p1 p2 : ImVec2 F) : ImVec2 F × ImVec2 F :=
  let distance := sqrt (pow (p2.x - p1.x) 2 + pow (p2.y - p1.y) 2)
  let delta := distance * 0.45
  let delta := if p2.x < p1.x then delta + 0.2 * (p1.x - p2.x) else delta
  let vert : F := 0
  let p22 := p2 - ⟨delta, vert⟩
  let delta := if p2.x < p1.x - 50 then delta * (-1) else delta
  let p11 := p1 + ⟨delta, vert⟩
  (p11, p22)

/-- The point at parameter `t` of the cubic Bezier curve with control points `p0`, `p1`,
`p2`, `p3`. -/
def ImCubicBezier {F : Type} [LinearOrderedField F] (p0 p1 p2 p3 : ImVec2 F) (t : F) :
    ImVec2 F :=
  ⟨(1 - t) ^ 3 * p0.x + 3 * (1 - t) ^ 2 * t * p1.x + 3 * (1 - t) * t ^ 2 * p2.x + t ^ 3 * p3.x,
   (1 - t) ^ 3 * p0.y + 3 * (1 - t) ^ 2 * t * p1.y + 3 * (1 - t) * t ^ 2 * p2.y + t ^ 3 * p3.y⟩

/-- The square of the distance between two points. -/
def distSq {F : Type} [LinearOrderedField F] (a b : ImVec2 F) : F :=
  (a.x - b.x) * (a.x - b.x) + (a.y - b.y) * (a.y - b.y)

/-- Modelled from the spec: `ImProjectOnCubicBezier` is defined in `imgui_bezier_math.h`,
which is not among the sources; the spec says that the hit test "returns whether `point`
lies within `radius` of the nearest point on that approximate cubic". The test
`ImProjectOnCubicBezier(p, p0, p1, p2, p3).Distance < radius` holds when some point of the
cubic is nearer to `p` than `radius`. -/
def projectsWithin {F : Type} [LinearOrderedField F] (p p0 p1 p2 p3 : ImVec2 F)
    (radius : F) : Prop :=
  0 < radius ∧
    ∃ t, 0 ≤ t ∧ t ≤ 1 ∧ distSq p (ImCubicBezier p0 p1 p2 p3 t) < radius * radius

/-- Embedding of `smart_bezier_collider`: the hit test on the cubic through its control
points. -/
def smart_bezier_collider {F : Type} [LinearOrderedField F] (sqrt : F → F) (pow : F → F → F)
    (p p1 p2 : ImVec2 F) (radius : F) : Prop :=
  projectsWithin p p1 (smart_bezier_collider_points sqrt pow p1 p2).1
    (smart_bezier_collider_points sqrt pow p1 p2).2 p2 radius

/-- A square root on the rationals that is exact on squares: the integer square root of
numerator times denominator, over the denominator. -/
def sampleSqrt (q : ℚ) : ℚ :=
  (Nat.sqrt (q.num.toNat * q.den) : ℚ) / q.den

/-- The function `pow` on the rationals for a natural exponent. -/
def samplePow (x y : ℚ) : ℚ :=
  x ^ y.num.toNat

/-- The value of the local `distance` of `smart_bezier`. -/
def bezierDistance {F : Type} [LinearOrderedField F] (sqrtf : F → F) (p1 p2 : ImVec2 F) : F :=
  sqrtf ((p2.x - p1.x) * (p2.x - p1.x) + (p2.y - p1.y) * (p2.y - p1.y))

/-! ## Sample data -/

/-- Sample pins: even numbers are output pins, odd numbers are input pins; pin `p` belongs
to node `p / 10`; no pin allows a self connection; every filter accepts; a hook is set. -/
def samplePins : Pins where
  getType := fun p => if p % 2 = 0 then PinType.PinType_Output else PinType.PinType_Input
  getParent := fun p => p / 10
  m_allowSelfConnection := fun _ => false
  m_filter := fun _ _ _ _ => true
  onLinkCreateHook := true

/-- Sample pins whose filters reject every connection. -/
def rejectPins : Pins where
  getType := fun p => if p % 2 = 0 then PinType.PinType_Output else PinType.PinType_Input
  getParent := fun p => p / 10
  m_allowSelfConnection := fun _ => false
  m_filter := fun _ _ _ _ => false
  onLinkCreateHook := true

/-- A sample graph: input pin 11 holds the link 0 -> 11, output pin 0 refers to it and to
a link 0 -> 13 that no input pin holds any more. -/
def sampleGraph : Graph where
  inLinks := fun p => if p = 11 then [some ⟨0, 0, 11⟩] else []
  outLinks := fun p => if p = 0 then [⟨0, 0, 11⟩, ⟨1, 0, 13⟩] else []
  registry := [⟨0, 0, 11⟩, ⟨1, 0, 13⟩]
  hookCalls := []
  notified := []
  nextId := 2

/-- A node with one static input pin and one static output pin, both with identifier 5. -/
def sampleNode : BaseNode where
  m_ins := [⟨100, 5, "in"⟩]
  m_outs := [⟨200, 5, "out"⟩]
  m_dynamicIns := []
  m_dynamicOuts := []

/-- A node whose only input pin and only output pin are dynamic, with identifier 5. -/
def dynamicNode : BaseNode where
  m_ins := []
  m_outs := []
  m_dynamicIns := [(1, ⟨300, 5, "in"⟩)]
  m_dynamicOuts := [(2, ⟨400, 5, "out"⟩)]

/-- A node with two static output pins of identifier 5; the second one is output pin 0,
the source of the link of `createdGraph`. -/
def twinNode : BaseNode where
  m_ins := []
  m_outs := [⟨20, 5, "first"⟩, ⟨0, 5, "second"⟩]
  m_dynamicIns := []
  m_dynamicOuts := []

/-- A list of 2^32 links from output pin 0, link `i` going to input pin `2 * i + 1`. -/
def hugeList : List Link :=
  (List.range UINT_SIZE).map (fun i => ⟨i, 0, 2 * i + 1⟩)

/-- A graph in which output pin 0 holds the 2^32 links of `hugeList`, all live: input pin
`2 * i + 1` holds link `i`. -/
def hugeGraph : Graph where
  inLinks := fun p => if p % 2 = 1 then [some ⟨p / 2, 0, p⟩] else []
  outLinks := fun p => if p = 0 then hugeList else []
  registry := hugeList
  hookCalls := []
  notified := []
  nextId := UINT_SIZE

/-! ## Connection protocol -/

theorem InPin.createLink_cases (P : Pins) (self other : Nat) (g : Graph) :
    (InPin.createLink P self other g = g) ∨
    (other ≠ self ∧ P.getType other ≠ PinType.PinType_Input ∧
      ¬ (P.getParent self = P.getParent other ∧ P.m_allowSelfConnection self = false) ∧
      (g.inLinks self).any (linkFrom other) = false ∧
      P.m_filter self g other self = true ∧
      InPin.createLink P self other g = linked P self other g) := by
  unfold InPin.createLink
  by_cases h1 : other = self ∨ P.getType other = PinType.PinType_Input
  · left; simp [h1]
  by_cases h2 : P.getParent self = P.getParent other ∧ P.m_allowSelfConnection self = false
  · left; simp [h1, h2]
  by_cases h3 : (g.inLinks self).any (linkFrom other) = true
  · left; rw [if_neg h1, if_neg h2, if_pos h3]
  by_cases h4 : P.m_filter self g other self = false
  · left; rw [if_neg h1, if_neg h2, if_neg h3, if_pos h4]
  right
  rw [if_neg h1, if_neg h2, if_neg h3, if_neg h4]
  push_neg at h1
  refine ⟨h1.1, h1.2, h2, by simpa using h3, by simpa using h4, ?_⟩
  by_cases hk : P.onLinkCreateHook = true
  · simp [hk, linked, OutPin.addLink, ImNodeFlow.addLink, Graph.setIn, Graph.setOut]
  · simp [hk, linked, OutPin.addLink, ImNodeFlow.addLink, Graph.setIn, Graph.setOut]

theorem InPin.createLink_reject (P : Pins) (self other : Nat) (g : Graph)
    (h : (other = self ∨ P.getType other = PinType.PinType_Input) ∨
      (P.getParent self = P.getParent other ∧ P.m_allowSelfConnection self = false) ∨
      (g.inLinks self).any (linkFrom other) = true ∨
      P.m_filter self g other self = false) :
    InPin.createLink P self other g = g := by
  rcases InPin.createLink_cases P self other g with h0 | ⟨h1, h2, h3, h4, h5, _⟩
  · exact h0
  · exfalso
    rcases h with h | h | h | h
    · rcases h with h | h
      · exact h1 h
      · exact h2 h
    · exact h3 h
    · rw [h4] at h; exact Bool.false_ne_true h
    · rw [h5] at h; exact Bool.false_ne_true h.symm

theorem InPin.createLink_accept (P : Pins) (self other : Nat) (g : Graph)
    (h1 : other ≠ self) (h2 : P.getType other ≠ PinType.PinType_Input)
    (h3 : ¬ (P.getParent self = P.getParent other ∧ P.m_allowSelfConnection self = false))
    (h4 : (g.inLinks self).any (linkFrom other) = false)
    (h5 : P.m_filter self g other self = true) :
    InPin.createLink P self other g = linked P self other g := by
  unfold InPin.createLink
  have h1n : ¬ (other = self ∨ P.getType other = PinType.PinType_Input) := by
    push_neg; exact ⟨h1, h2⟩
  have h4n : ¬ ((g.inLinks self).any (linkFrom other) = true) := by
    rw [h4]; exact Bool.false_ne_true
  have h5n : ¬ (P.m_filter self g other self = false) := by
    rw [h5]; exact fun h => Bool.false_ne_true h.symm
  rw [if_neg h1n, if_neg h3, if_neg h4n, if_neg h5n]
  by_cases hk : P.onLinkCreateHook = true
  · simp [hk, linked, OutPin.addLink, ImNodeFlow.addLink, Graph.setIn, Graph.setOut]
  · simp [hk, linked, OutPin.addLink, ImNodeFlow.addLink, Graph.setIn, Graph.setOut]

theorem any_linkFrom_false (other : Nat) (l : List (Option Link)) :
    l.any (linkFrom other) = false ↔ ∀ k, some k ∈ l → k.left ≠ other := by
  rw [List.any_eq_false]
  constructor
  · intro h k hk hl
    exact h (some k) hk (by simp [linkFrom, hl])
  · intro h e he
    cases e with
    | none => simp [linkFrom]
    | some k => simpa [linkFrom] using h k he

theorem pairCount_zero (A B : Nat) (l : List (Option Link))
    (h : ∀ k, some k ∈ l → k.left ≠ A) : pairCount A B l = 0 := by
  unfold pairCount
  rw [List.countP_eq_zero]
  intro e he
  cases e with
  | none => simp
  | some k => simp [h k he]

/-- C1: when `A` is an output pin, `B` an input pin of another node, `B` holds no link whose
source is `A` and the filter of `B` accepts `(A, B)`, one call `B.createLink(A)` allocates
one link object with source `A` and destination `B` and appends it to the list of `B`, to
the list of `A` and to the registry; every other list is unchanged, no destination pin is
notified of a removal, the hook (if set) sees exactly that link, and in a graph whose links
were all allocated earlier the link occurs nowhere before the call. -/
theorem C1_createLink_adds_one_link (P : Pins) (g : Graph) (A B : Nat)
    (hA : P.getType A = PinType.PinType_Output) (hB : P.getType B = PinType.PinType_Input)
    (hnode : P.getParent B ≠ P.getParent A)
    (hnew : ∀ l, some l ∈ g.inLinks B → l.left ≠ A)
    (hfilter : P.m_filter B g A B = true) :
    (InPin.createLink P B A g).inLinks B = g.inLinks B ++ [some ⟨g.nextId, A, B⟩] ∧
    (InPin.createLink P B A g).outLinks A = g.outLinks A ++ [⟨g.nextId, A, B⟩] ∧
    (InPin.createLink P B A g).registry = g.registry ++ [⟨g.nextId, A, B⟩] ∧
    (∀ p, p ≠ B → (InPin.createLink P B A g).inLinks p = g.inLinks p) ∧
    (∀ p, p ≠ A → (InPin.createLink P B A g).outLinks p = g.outLinks p) ∧
    (InPin.createLink P B A g).hookCalls =
      g.hookCalls ++ (if P.onLinkCreateHook = true then [⟨g.nextId, A, B⟩] else []) ∧
    (InPin.createLink P B A g).notified = g.notified ∧
    (InPin.createLink P B A g).nextId = g.nextId + 1 ∧
    (g.Allocated → (⟨g.nextId, A, B⟩ : Link) ∉ g.registry ∧
      ∀ p, some (⟨g.nextId, A, B⟩ : Link) ∉ g.inLinks p ∧ (⟨g.nextId, A, B⟩ : Link) ∉ g.outLinks p) := by
  have hne : A ≠ B := by
    intro h; rw [h, hB] at hA; exact PinType.noConfusion hA
  have hty : P.getType A ≠ PinType.PinType_Input := by
    rw [hA]; exact fun h => PinType.noConfusion h
  have hpar : ¬ (P.getParent B = P.getParent A ∧ P.m_allowSelfConnection B = false) :=
    fun h => hnode h.1
  rw [InPin.createLink_accept P B A g hne hty hpar ((any_linkFrom_false A _).2 hnew) hfilter]
  refine ⟨by simp [linked], by simp [linked], rfl, ?_, ?_, rfl, rfl, rfl, ?_⟩
  · intro p hp
    simp [linked, Function.update_noteq hp]
  · intro p hp
    simp [linked, Function.update_noteq hp]
  · intro hall
    refine ⟨fun h => ?_, fun p => ⟨fun h => ?_, fun h => ?_⟩⟩
    · exact Nat.lt_irrefl _ (hall.2.2 _ h)
    · exact Nat.lt_irrefl _ (hall.1 p _ h)
    · exact Nat.lt_irrefl _ (hall.2.1 p _ h)

/-- Witness of C1 on the sample pins: output pin 0 of node 0 and input pin 11 of node 1 in
the empty graph. -/
theorem C1_createLink_adds_one_link_witness :
    (InPin.createLink samplePins 11 0 emptyGraph).inLinks 11 = [some ⟨0, 0, 11⟩] ∧
    (InPin.createLink samplePins 11 0 emptyGraph).outLinks 0 = [⟨0, 0, 11⟩] ∧
    (InPin.createLink samplePins 11 0 emptyGraph).registry = [⟨0, 0, 11⟩] :=
  have h := C1_createLink_adds_one_link samplePins emptyGraph 0 11 (by decide) (by decide)
    (by decide) (by intro l hl; simp [emptyGraph] at hl) rfl
  ⟨h.1, h.2.1, h.2.2.1⟩

/-- C2: after a call `B.createLink(A)` that created a link, a second `B.createLink(A)` and
a call `A.createLink(B)` both return the graph unchanged (every list, the registry and the
logs), and the list of `B` holds exactly one link from `A` to `B`. -/
theorem C2_second_createLink_is_noop (P : Pins) (g : Graph) (A B : Nat)
    (hfirst : InPin.createLink P B A g ≠ g) :
    InPin.createLink P B A (InPin.createLink P B A g) = InPin.createLink P B A g ∧
    OutPin.createLink P A B (InPin.createLink P B A g) = InPin.createLink P B A g ∧
    pairCount A B ((InPin.createLink P B A g).inLinks B) = 1 ∧
    pairCount A B ((InPin.createLink P B A (InPin.createLink P B A g)).inLinks B) = 1 := by
  rcases InPin.createLink_cases P B A g with h0 | ⟨h1, h2, h3, h4, h5, h6⟩
  · exact absurd h0 hfirst
  have hin : (linked P B A g).inLinks B = g.inLinks B ++ [some ⟨g.nextId, A, B⟩] := by
    simp [linked]
  have hdup : ((linked P B A g).inLinks B).any (linkFrom A) = true := by
    rw [hin]; simp [linkFrom]
  have hsecond : InPin.createLink P B A (linked P B A g) = linked P B A g :=
    InPin.createLink_reject P B A _ (Or.inr (Or.inr (Or.inl hdup)))
  have hcount : pairCount A B ((linked P B A g).inLinks B) = 1 := by
    have hz := pairCount_zero A B (g.inLinks B) ((any_linkFrom_false A _).1 h4)
    rw [hin]
    unfold pairCount at hz ⊢
    rw [List.countP_append, hz]
    simp
  rw [h6]
  refine ⟨hsecond, ?_, hcount, by rw [hsecond]; exact hcount⟩
  unfold OutPin.createLink
  split
  · rfl
  · exact hsecond

/-- Witness of C2: the first call on the empty graph creates a link. -/
theorem C2_second_createLink_is_noop_witness :
    InPin.createLink samplePins 11 0 (InPin.createLink samplePins 11 0 emptyGraph) =
      InPin.createLink samplePins 11 0 emptyGraph :=
  (C2_second_createLink_is_noop samplePins emptyGraph 0 11
    (by intro h
        have h1 : (InPin.createLink samplePins 11 0 emptyGraph).nextId = emptyGraph.nextId := by
          rw [h]
        revert h1
        decide)).1

/-- C3: a call `X.createLink(Y)` returns the graph unchanged (every list of every pin, the
registry, and the log of hook calls) when `Y` is `X`, when both pins are input pins, when
both are output pins, when both belong to the same node and the input pin of the pair does
not allow self connection, or when the filter of the input pin rejects the pair. -/
theorem C3_invalid_createLink_is_noop (P : Pins) (g : Graph) (X Y : Nat)
    (h : Y = X ∨
      (P.getType X = PinType.PinType_Input ∧ P.getType Y = PinType.PinType_Input) ∨
      (P.getType X = PinType.PinType_Output ∧ P.getType Y = PinType.PinType_Output) ∨
      (P.getParent X = P.getParent Y ∧ P.m_allowSelfConnection (inputOf P X Y) = false) ∨
      P.m_filter (inputOf P X Y) g (sourceOf P X Y) (inputOf P X Y) = false) :
    Pin.createLink P X Y g = g := by
  unfold Pin.createLink
  cases hX : P.getType X with
  | PinType_Input =>
    simp only [inputOf, sourceOf, hX, if_true] at h
    simp only
    apply InPin.createLink_reject
    rcases h with h | h | h | h | h
    · exact Or.inl (Or.inl h)
    · exact Or.inl (Or.inr h.2)
    · exact absurd h.1 (fun h => PinType.noConfusion h)
    · exact Or.inr (Or.inl h)
    · exact Or.inr (Or.inr (Or.inr h))
  | PinType_Output =>
    have hXn : ¬ (PinType.PinType_Output = PinType.PinType_Input) := by decide
    simp only [inputOf, sourceOf, hX, if_neg hXn] at h
    simp only
    unfold OutPin.createLink
    by_cases hg : Y = X ∨ P.getType Y = PinType.PinType_Output
    · rw [if_pos hg]
    rw [if_neg hg]
    push_neg at hg
    apply InPin.createLink_reject
    rcases h with h | h | h | h | h
    · exact absurd h hg.1
    · exact absurd h.1 (fun h => PinType.noConfusion h)
    · exact absurd h.2 hg.2
    · exact Or.inr (Or.inl ⟨h.1.symm, h.2⟩)
    · exact Or.inr (Or.inr (Or.inr h))

/-- Witness of C3 on pins that reject every pair: input pin 11 and output pin 0. -/
theorem C3_invalid_createLink_is_noop_witness :
    Pin.createLink rejectPins 0 11 emptyGraph = emptyGraph :=
  C3_invalid_createLink_is_noop rejectPins emptyGraph 0 11
    (Or.inr (Or.inr (Or.inr (Or.inr rfl))))

/-! ## Removal of one link from an output pin -/

theorem uintInc_uintDec (i : Nat) (h : i < UINT_SIZE) : uintInc (uintDec i) = i := by
  unfold uintInc uintDec UINT_SIZE at *
  omega

theorem uintInc_eq (i : Nat) (h : i + 1 < UINT_SIZE) : uintInc i = i + 1 := by
  unfold uintInc UINT_SIZE at *
  omega

theorem expired_setOut (g : Graph) (p : Nat) (l : List Link) (e : Link) :
    (g.setOut p l).expired e = g.expired e := rfl

theorem expired_deleteLink_self (g : Graph) (k : Link) :
    (InPin.deleteLink k.right k g).expired k = true := by
  simp [Graph.expired, InPin.deleteLink]

theorem expired_deleteLink_other (g : Graph) (k e : Link) (h : e ≠ k) :
    (InPin.deleteLink k.right k g).expired e = g.expired e := by
  unfold Graph.expired InPin.deleteLink
  by_cases hr : e.right = k.right
  · show (!(Function.update g.inLinks k.right
        ((g.inLinks k.right).filter (fun x => decide (x ≠ some k))) e.right).contains (some e)) =
      !(g.inLinks e.right).contains (some e)
    rw [hr, Function.update_same]
    congr 1
    rw [Bool.eq_iff_iff]
    simp [List.mem_filter, h]
  · show (!(Function.update g.inLinks k.right
        ((g.inLinks k.right).filter (fun x => decide (x ≠ some k))) e.right).contains (some e)) =
      !(g.inLinks e.right).contains (some e)
    rw [Function.update_noteq hr]

theorem keeps_congr (g g1 : Graph) (k : Link) (h : ∀ e, e ≠ k → g1.expired e = g.expired e) :
    keeps g1 k = keeps g k := by
  funext e
  unfold keeps
  by_cases he : e = k
  · simp [he]
  · rw [h e he]

theorem afterLoop_cond_skip (k e : Link) (rest : List Link) (g : Graph)
    (h : e = k → g.expired k = true) :
    (k ∈ rest ∧ g.expired k = false) ↔ (k ∈ e :: rest ∧ g.expired k = false) := by
  constructor
  · rintro ⟨h1, h2⟩; exact ⟨List.mem_cons_of_mem _ h1, h2⟩
  · rintro ⟨h1, h2⟩
    rcases List.mem_cons.1 h1 with h3 | h3
    · rw [h h3.symm] at h2; exact absurd h2 (by decide)
    · exact ⟨h3, h2⟩

/-- An expired entry is erased and the loop goes on at the same index. -/
theorem afterLoop_expired (A : Nat) (k e : Link) (pre rest : List Link) (g : Graph)
    (hexp : g.expired e = true) :
    afterLoop A k pre rest (g.setOut A (pre ++ rest)) = afterLoop A k pre (e :: rest) g := by
  have hk : keeps (g.setOut A (pre ++ rest)) k = keeps g k :=
    keeps_congr _ _ _ (fun e _ => rfl)
  have hcond := afterLoop_cond_skip k e rest g (fun h => by rw [← h]; exact hexp)
  have hfilter : (e :: rest).filter (keeps g k) = rest.filter (keeps g k) := by
    rw [List.filter_cons_of_neg]; simp [keeps, hexp]
  ext1
  · simp only [afterLoop, expired_setOut, hcond]; rfl
  · show Function.update (g.setOut A (pre ++ rest)).outLinks A
        (pre ++ rest.filter (keeps (g.setOut A (pre ++ rest)) k)) =
      Function.update g.outLinks A (pre ++ (e :: rest).filter (keeps g k))
    rw [hk, hfilter]
    simp [Graph.setOut]
  · rfl
  · rfl
  · simp only [afterLoop, expired_setOut, hcond]; rfl
  · rfl

/-- A live entry for the link is erased after its destination pin has been notified. -/
theorem afterLoop_match (A : Nat) (e : Link) (pre rest : List Link) (g : Graph)
    (hexpf : g.expired e = false) :
    afterLoop A e pre rest ((InPin.deleteLink e.right e g).setOut A (pre ++ rest)) =
      afterLoop A e pre (e :: rest) g := by
  have hk : keeps ((InPin.deleteLink e.right e g).setOut A (pre ++ rest)) e = keeps g e :=
    keeps_congr _ _ _ (fun x hx => by
      rw [expired_setOut]; exact expired_deleteLink_other g e x hx)
  have hexp1 : ((InPin.deleteLink e.right e g).setOut A (pre ++ rest)).expired e = true := by
    rw [expired_setOut]; exact expired_deleteLink_self g e
  have hfilter : (e :: rest).filter (keeps g e) = rest.filter (keeps g e) := by
    rw [List.filter_cons_of_neg]; simp [keeps]
  ext1
  · simp only [afterLoop, hexp1, hexpf]
    simp [Graph.setOut, InPin.deleteLink]
  · show Function.update ((InPin.deleteLink e.right e g).setOut A (pre ++ rest)).outLinks A
        (pre ++ rest.filter (keeps ((InPin.deleteLink e.right e g).setOut A (pre ++ rest)) e)) =
      Function.update g.outLinks A (pre ++ (e :: rest).filter (keeps g e))
    rw [hk, hfilter]
    simp [Graph.setOut, InPin.deleteLink]
  · rfl
  · rfl
  · simp only [afterLoop, hexp1, hexpf]
    simp [Graph.setOut, InPin.deleteLink]
  · rfl

/-- Any other live entry is kept and the loop goes on at the next index. -/
theorem afterLoop_keep (A : Nat) (k e : Link) (pre rest : List Link) (g : Graph)
    (hexpf : g.expired e = false) (hek : e ≠ k) :
    afterLoop A k (pre ++ [e]) rest g = afterLoop A k pre (e :: rest) g := by
  have hcond := afterLoop_cond_skip k e rest g (fun h => absurd h hek)
  have hfilter : (e :: rest).filter (keeps g k) = e :: rest.filter (keeps g k) := by
    rw [List.filter_cons_of_pos]; simp [keeps, hexpf, hek]
  ext1
  · simp only [afterLoop, hcond]
  · simp only [afterLoop, hfilter, List.append_assoc, List.singleton_append]
  · rfl
  · rfl
  · simp only [afterLoop, hcond]
  · rfl

theorem afterLoop_nil (A : Nat) (k : Link) (pre : List Link) (g : Graph)
    (hL : g.outLinks A = pre) : afterLoop A k pre [] g = g := by
  ext1
  · simp [afterLoop]
  · simp only [afterLoop, List.filter_nil, List.append_nil]
    rw [← hL, Function.update_eq_self]
  · rfl
  · rfl
  · simp [afterLoop]
  · rfl

theorem getElem?_at_length (pre rest : List Link) (e : Link) :
    (pre ++ e :: rest)[pre.length]? = some e := by
  rw [List.getElem?_append_right (le_refl _)]; simp

theorem eraseIdx_at_length (pre rest : List Link) (e : Link) :
    (pre ++ e :: rest).eraseIdx pre.length = pre ++ rest := by
  rw [List.eraseIdx_append_of_length_le (le_refl _)]; simp

/-- With enough fuel, and fewer than 2^32 entries surviving, the loop returns. -/
theorem deleteLinkLoop_spec (A : Nat) (k : Link) :
    ∀ (rest pre : List Link) (g : Graph) (fuel : Nat),
      g.outLinks A = pre ++ rest → pre.length + (rest.filter (keeps g k)).length < UINT_SIZE →
      rest.length < fuel →
      OutPin.deleteLinkLoop A k fuel pre.length g = some (afterLoop A k pre rest g) := by
  intro rest
  induction rest with
  | nil =>
    intro pre g fuel hL _ hfuel
    obtain ⟨f, rfl⟩ : ∃ f, fuel = f + 1 := ⟨fuel - 1, by simp at hfuel; omega⟩
    unfold OutPin.deleteLinkLoop
    have hget : (g.outLinks A)[pre.length]? = none := by
      rw [hL]; simp
    rw [hget, afterLoop_nil A k pre g (by simpa using hL)]
  | cons e rest ih =>
    intro pre g fuel hL hlen hfuel
    obtain ⟨f, rfl⟩ : ∃ f, fuel = f + 1 := ⟨fuel - 1, by simp at hfuel; omega⟩
    have hf : rest.length < f := by simpa using hfuel
    have hi : pre.length < UINT_SIZE := by omega
    unfold OutPin.deleteLinkLoop
    have hget : (g.outLinks A)[pre.length]? = some e := by
      rw [hL]; exact getElem?_at_length pre rest e
    have herase : (g.outLinks A).eraseIdx pre.length = pre ++ rest := by
      rw [hL]; exact eraseIdx_at_length pre rest e
    rw [hget]
    simp only
    by_cases hexp : g.expired e = true
    · rw [if_pos hexp, uintInc_uintDec _ hi, herase, ← afterLoop_expired A k e pre rest g hexp]
      have hk : keeps (g.setOut A (pre ++ rest)) k = keeps g k :=
        keeps_congr _ _ _ (fun e _ => rfl)
      have hfilter : (e :: rest).filter (keeps g k) = rest.filter (keeps g k) := by
        rw [List.filter_cons_of_neg]; simp [keeps, hexp]
      exact ih pre (g.setOut A (pre ++ rest)) f (by simp [Graph.setOut])
        (by rw [hk, ← hfilter]; exact hlen) hf
    · rw [if_neg hexp]
      have hexpf : g.expired e = false := by simpa using hexp
      by_cases hek : e = k
      · rw [if_pos hek]
        subst hek
        have hout : (InPin.deleteLink e.right e g).outLinks A = g.outLinks A := rfl
        rw [uintInc_uintDec _ hi, hout, herase, ← afterLoop_match A e pre rest g hexpf]
        have hk : keeps ((InPin.deleteLink e.right e g).setOut A (pre ++ rest)) e = keeps g e :=
          keeps_congr _ _ _ (fun x hx => by
            rw [expired_setOut]; exact expired_deleteLink_other g e x hx)
        have hfilter : (e :: rest).filter (keeps g e) = rest.filter (keeps g e) := by
          rw [List.filter_cons_of_neg]; simp [keeps]
        exact ih pre ((InPin.deleteLink e.right e g).setOut A (pre ++ rest)) f
          (by simp [Graph.setOut]) (by rw [hk, ← hfilter]; exact hlen) hf
      · rw [if_neg hek]
        have hfilter : (e :: rest).filter (keeps g k) = e :: rest.filter (keeps g k) := by
          rw [List.filter_cons_of_pos]; simp [keeps, hexpf, hek]
        rw [hfilter] at hlen
        have hlen1 : pre.length + 1 < UINT_SIZE := by simp at hlen; omega
        rw [uintInc_eq _ hlen1, ← afterLoop_keep A k e pre rest g hexpf hek]
        have := ih (pre ++ [e]) g f (by simp [hL]) (by simp at hlen ⊢; omega) hf
        simpa using this

/-- When the first 2^32 entries of the list all survive, the index never gets past them:
the loop does not return, whatever the fuel. -/
theorem deleteLinkLoop_stuck (A : Nat) (k : Link) (g : Graph)
    (hall : ∀ j, j < UINT_SIZE → ∃ x, (g.outLinks A)[j]? = some x ∧ keeps g k x = true) :
    ∀ (fuel i : Nat), i < UINT_SIZE → OutPin.deleteLinkLoop A k fuel i g = none := by
  intro fuel
  induction fuel with
  | zero => intro i _; rfl
  | succ f ih =>
    intro i hi
    obtain ⟨x, hx, hkeep⟩ := hall i hi
    unfold OutPin.deleteLinkLoop
    rw [hx]
    simp only [keeps, Bool.and_eq_true, Bool.not_eq_true', decide_eq_true_eq] at hkeep
    simp only
    rw [if_neg (by rw [hkeep.1]; exact Bool.false_ne_true), if_neg hkeep.2]
    apply ih
    unfold uintInc UINT_SIZE
    omega

/-- Whenever the loop returns, with whatever fuel, it returns the filtered list. -/
theorem deleteLinkLoop_result (A : Nat) (k : Link) :
    ∀ (fuel : Nat) (rest pre : List Link) (g g1 : Graph),
      g.outLinks A = pre ++ rest → pre.length < UINT_SIZE →
      (∀ x ∈ pre, keeps g k x = true) →
      OutPin.deleteLinkLoop A k fuel pre.length g = some g1 →
      g1 = afterLoop A k pre rest g := by
  intro fuel
  induction fuel with
  | zero =>
    intro rest pre g g1 _ _ _ h
    simp [OutPin.deleteLinkLoop] at h
  | succ f ih =>
    intro rest pre g g1 hL hi hpre h
    unfold OutPin.deleteLinkLoop at h
    cases rest with
    | nil =>
      have hget : (g.outLinks A)[pre.length]? = none := by
        rw [hL]; simp
      rw [hget] at h
      simp only [Option.some.injEq] at h
      rw [← h, afterLoop_nil A k pre g (by simpa using hL)]
    | cons e rest =>
      have hget : (g.outLinks A)[pre.length]? = some e := by
        rw [hL]; exact getElem?_at_length pre rest e
      have herase : (g.outLinks A).eraseIdx pre.length = pre ++ rest := by
        rw [hL]; exact eraseIdx_at_length pre rest e
      rw [hget] at h
      simp only at h
      by_cases hexp : g.expired e = true
      · rw [if_pos hexp, uintInc_uintDec _ hi, herase] at h
        have hk : keeps (g.setOut A (pre ++ rest)) k = keeps g k :=
          keeps_congr _ _ _ (fun e _ => rfl)
        rw [← afterLoop_expired A k e pre rest g hexp]
        exact ih rest pre (g.setOut A (pre ++ rest)) g1 (by simp [Graph.setOut]) hi
          (by rw [hk]; exact hpre) h
      · rw [if_neg hexp] at h
        have hexpf : g.expired e = false := by simpa using hexp
        by_cases hek : e = k
        · rw [if_pos hek] at h
          subst hek
          have hout : (InPin.deleteLink e.right e g).outLinks A = g.outLinks A := rfl
          rw [uintInc_uintDec _ hi, hout, herase] at h
          have hk : keeps ((InPin.deleteLink e.right e g).setOut A (pre ++ rest)) e =
              keeps g e :=
            keeps_congr _ _ _ (fun x hx => by
              rw [expired_setOut]; exact expired_deleteLink_other g e x hx)
          rw [← afterLoop_match A e pre rest g hexpf]
          exact ih rest pre ((InPin.deleteLink e.right e g).setOut A (pre ++ rest)) g1
            (by simp [Graph.setOut]) hi (by rw [hk]; exact hpre) h
        · rw [if_neg hek] at h
          have hke : keeps g k e = true := by simp [keeps, hexpf, hek]
          by_cases hwrap : pre.length + 1 < UINT_SIZE
          · rw [uintInc_eq _ hwrap] at h
            rw [← afterLoop_keep A k e pre rest g hexpf hek]
            have hpre1 : ∀ x ∈ pre ++ [e], keeps g k x = true := by
              intro x hx
              rcases List.mem_append.1 hx with hx | hx
              · exact hpre x hx
              · rw [List.mem_singleton] at hx; rw [hx]; exact hke
            have h1 : OutPin.deleteLinkLoop A k f (pre ++ [e]).length g = some g1 := by
              simpa using h
            exact ih rest (pre ++ [e]) g g1 (by simp [hL]) (by simpa using hwrap) hpre1 h1
          · exfalso
            have hlen : pre.length + 1 = UINT_SIZE := by omega
            have hzero : uintInc pre.length = 0 := by
              unfold uintInc; rw [hlen]; simp [UINT_SIZE]
            rw [hzero] at h
            have hstuck := deleteLinkLoop_stuck A k g (by
              intro j hj
              by_cases hjp : j < pre.length
              · refine ⟨pre[j], ?_, hpre _ (List.getElem_mem _)⟩
                rw [hL, List.getElem?_append_left hjp, List.getElem?_eq_getElem hjp]
              · have hjeq : j = pre.length := by omega
                exact ⟨e, by rw [hjeq]; exact hget, hke⟩) f 0 (by simp [UINT_SIZE])
            rw [hstuck] at h
            cases h

theorem deleteLink_eq (A : Nat) (k : Link) (g : Graph) (fuel : Nat)
    (hlen : ((g.outLinks A).filter (keeps g k)).length < UINT_SIZE)
    (hfuel : (g.outLinks A).length < fuel) :
    OutPin.deleteLink fuel A k g = some (afterDeleteLink A k g) := by
  have := deleteLinkLoop_spec A k (g.outLinks A) [] g fuel (by simp) (by simpa using hlen) hfuel
  simpa [OutPin.deleteLink, afterDeleteLink] using this

theorem deleteLink_result (A : Nat) (k : Link) (g g1 : Graph) (fuel : Nat)
    (h : OutPin.deleteLink fuel A k g = some g1) : g1 = afterDeleteLink A k g :=
  deleteLinkLoop_result A k fuel (g.outLinks A) [] g g1 (by simp) (by simp [UINT_SIZE])
    (by simp) h

theorem afterDeleteLink_out (A : Nat) (k : Link) (g : Graph) :
    (afterDeleteLink A k g).outLinks A = (g.outLinks A).filter (keeps g k) := by
  simp [afterDeleteLink, afterLoop]

theorem afterDeleteLink_out_other (A : Nat) (k : Link) (g : Graph) (p : Nat) (hp : p ≠ A) :
    (afterDeleteLink A k g).outLinks p = g.outLinks p := by
  simp [afterDeleteLink, afterLoop, Function.update_noteq hp]

theorem afterDeleteLink_expired (A : Nat) (k : Link) (g : Graph) (e : Link) (he : e ≠ k) :
    (afterDeleteLink A k g).expired e = g.expired e := by
  by_cases hc : k ∈ g.outLinks A ∧ g.expired k = false
  · have h : (afterDeleteLink A k g).inLinks = (InPin.deleteLink k.right k g).inLinks := by
      simp [afterDeleteLink, afterLoop, hc, InPin.deleteLink]
    have h2 := expired_deleteLink_other g k e he
    unfold Graph.expired at h2 ⊢
    rw [h]; exact h2
  · have h : (afterDeleteLink A k g).inLinks = g.inLinks := by
      simp only [afterDeleteLink, afterLoop, if_neg hc]
    unfold Graph.expired
    rw [h]

theorem afterDeleteLink_fixed (A : Nat) (k : Link) (g : Graph)
    (h : ∀ e ∈ g.outLinks A, keeps g k e = true) : afterDeleteLink A k g = g := by
  have hk : k ∉ g.outLinks A := by
    intro hk
    have := h k hk
    simp [keeps] at this
  have hc : ¬ (k ∈ g.outLinks A ∧ g.expired k = false) := fun hc => hk hc.1
  ext1
  · simp only [afterDeleteLink, afterLoop, if_neg hc]
  · simp only [afterDeleteLink, afterLoop, List.nil_append]
    rw [List.filter_eq_self.2 h, Function.update_eq_self]
  · rfl
  · rfl
  · simp only [afterDeleteLink, afterLoop, if_neg hc, List.append_nil]
  · rfl

theorem afterDeleteLink_idem (A : Nat) (k : Link) (g : Graph) :
    afterDeleteLink A k (afterDeleteLink A k g) = afterDeleteLink A k g := by
  apply afterDeleteLink_fixed
  intro e he
  rw [afterDeleteLink_out, List.mem_filter] at he
  have hek : e ≠ k := by
    have := he.2
    simp only [keeps, Bool.and_eq_true, decide_eq_true_eq] at this
    exact this.2
  have h2 := he.2
  unfold keeps at h2 ⊢
  rw [afterDeleteLink_expired A k g e hek]
  exact h2

/-- C9: on an output pin with list `L`, whenever `deleteLink(k)` returns it leaves the list
of the pin equal to `L` without its expired entries and without its entries referring to
`k`, the other entries in their original order, and the lists of the other output pins
unchanged. The destination pin of `k` is notified exactly once when `L` holds `k` and `k` is
not expired, and no pin is notified otherwise: an expired entry causes no notification, and
a further entry for `k` is expired by the time the loop reaches it. The call does return,
with any fuel above the length of `L`, when fewer than 2^32 entries remain (the range of
the `unsigned int` index). -/
theorem C9_deleteLink_filters_list (g : Graph) (A : Nat) (k : Link) (fuel : Nat) :
    (∀ g1, OutPin.deleteLink fuel A k g = some g1 →
      g1.outLinks A = (g.outLinks A).filter (fun e => !g.expired e && decide (e ≠ k)) ∧
      (∀ p, p ≠ A → g1.outLinks p = g.outLinks p) ∧
      g1.notified = g.notified ++
        (if k ∈ g.outLinks A ∧ g.expired k = false then [(k.right, k)] else [])) ∧
    (((g.outLinks A).filter (fun e => !g.expired e && decide (e ≠ k))).length < UINT_SIZE →
      (g.outLinks A).length < fuel →
      ∃ g1, OutPin.deleteLink fuel A k g = some g1) := by
  constructor
  · intro g1 h
    rw [deleteLink_result A k g g1 fuel h]
    refine ⟨?_, fun p hp => afterDeleteLink_out_other A k g p hp, rfl⟩
    rw [afterDeleteLink_out]; rfl
  · intro hlen hfuel
    exact ⟨afterDeleteLink A k g, deleteLink_eq A k g fuel hlen hfuel⟩

/-- Witness of C9: output pin 0 holds the live link 0 -> 11 and a reference to a link
0 -> 13 that is expired; `deleteLink` of the first returns, notifies pin 11 and empties the
list. -/
theorem C9_deleteLink_filters_list_witness :
    ∃ g1, OutPin.deleteLink 3 0 ⟨0, 0, 11⟩ sampleGraph = some g1 ∧
      g1.outLinks 0 = [] ∧ g1.notified = [(11, ⟨0, 0, 11⟩)] := by
  obtain ⟨g1, h⟩ :=
    (C9_deleteLink_filters_list sampleGraph 0 ⟨0, 0, 11⟩ 3).2 (by decide) (by decide)
  obtain ⟨h1, _, h3⟩ := (C9_deleteLink_filters_list sampleGraph 0 ⟨0, 0, 11⟩ 3).1 g1 h
  refine ⟨g1, h, ?_, ?_⟩
  · rw [h1]; decide
  · rw [h3]; decide

/-- C10: whenever a first `deleteLink(k)` on an output pin has returned, a second
`deleteLink(k)` that returns gives back the very graph the first one produced (the same
lists, and no further notification); and when the list held neither `k` nor an expired
entry, the first call already returned the graph it was given, so the list is unchanged and
no pin is notified. Both calls do return, with any fuel above the length of the list, when
fewer than 2^32 entries remain (the range of the `unsigned int` index). -/
theorem C10_deleteLink_idempotent (g : Graph) (A : Nat) (k : Link) (fuel fuel2 : Nat) :
    (∀ g1, OutPin.deleteLink fuel A k g = some g1 →
      (∀ g2, OutPin.deleteLink fuel2 A k g1 = some g2 → g2 = g1) ∧
      (k ∉ g.outLinks A → (∀ e ∈ g.outLinks A, g.expired e = false) → g1 = g)) ∧
    (((g.outLinks A).filter (fun e => !g.expired e && decide (e ≠ k))).length < UINT_SIZE →
      (g.outLinks A).length < fuel → (g.outLinks A).length < fuel2 →
      ∃ g1, OutPin.deleteLink fuel A k g = some g1 ∧
        OutPin.deleteLink fuel2 A k g1 = some g1) := by
  constructor
  · intro g1 h
    rw [deleteLink_result A k g g1 fuel h]
    constructor
    · intro g2 h2
      rw [deleteLink_result A k _ g2 fuel2 h2, afterDeleteLink_idem]
    · intro hk hexp
      apply afterDeleteLink_fixed
      intro e he
      have hek : e ≠ k := fun h => hk (h ▸ he)
      simp [keeps, hexp e he, hek]
  · intro hlen hfuel hfuel2
    refine ⟨afterDeleteLink A k g, deleteLink_eq A k g fuel hlen hfuel, ?_⟩
    have hle : ((afterDeleteLink A k g).outLinks A).length ≤ (g.outLinks A).length := by
      rw [afterDeleteLink_out]; exact List.length_filter_le _ _
    have hlen2 : (((afterDeleteLink A k g).outLinks A).filter
        (keeps (afterDeleteLink A k g) k)).length < UINT_SIZE := by
      refine lt_of_le_of_lt (List.length_filter_le _ _) ?_
      rw [afterDeleteLink_out]; exact hlen
    rw [deleteLink_eq A k _ fuel2 hlen2 (lt_of_le_of_lt hle hfuel2), afterDeleteLink_idem]

/-- Witness of C10 on the sample graph: both calls return and the second changes nothing. -/
theorem C10_deleteLink_idempotent_witness :
    ∃ g1, OutPin.deleteLink 3 0 ⟨0, 0, 11⟩ sampleGraph = some g1 ∧
      OutPin.deleteLink 4 0 ⟨0, 0, 11⟩ g1 = some g1 :=
  (C10_deleteLink_idempotent sampleGraph 0 ⟨0, 0, 11⟩ 3 4).2 (by decide) (by decide)
    (by decide)

/-! ## The invariant of the reachable graphs -/

theorem mem_linked_in (P : Pins) (B A : Nat) (g : Graph) (p : Nat) (l : Link) :
    some l ∈ (linked P B A g).inLinks p ↔
      some l ∈ g.inLinks p ∨ (p = B ∧ l = ⟨g.nextId, A, B⟩) := by
  by_cases hp : p = B
  · subst hp
    simp [linked]
  · simp [linked, Function.update_noteq hp, hp]

theorem mem_deleteLink_in (g : Graph) (k : Link) (p : Nat) (l : Link) :
    some l ∈ (InPin.deleteLink k.right k g).inLinks p ↔
      some l ∈ g.inLinks p ∧ ¬ (l = k ∧ p = k.right) := by
  by_cases hp : p = k.right
  · subst hp
    simp [InPin.deleteLink, List.mem_filter]
  · simp [InPin.deleteLink, Function.update_noteq hp, hp]

theorem deleteLink_in_sublist (g : Graph) (k : Link) (p : Nat) :
    ((InPin.deleteLink k.right k g).inLinks p).Sublist (g.inLinks p) := by
  by_cases hp : p = k.right
  · subst hp
    simp [InPin.deleteLink]
  · simp [InPin.deleteLink, Function.update_noteq hp]

theorem deleteLinksStep_out (g : Graph) (x : Link) :
    (OutPin.deleteLinksStep g x).outLinks = g.outLinks := by
  unfold OutPin.deleteLinksStep
  split <;> rfl

theorem deleteLinksStep_registry (g : Graph) (x : Link) :
    (OutPin.deleteLinksStep g x).registry = g.registry := by
  unfold OutPin.deleteLinksStep
  split <;> rfl

theorem deleteLinksStep_nextId (g : Graph) (x : Link) :
    (OutPin.deleteLinksStep g x).nextId = g.nextId := by
  unfold OutPin.deleteLinksStep
  split <;> rfl

theorem deleteLinksStep_hookCalls (g : Graph) (x : Link) :
    (OutPin.deleteLinksStep g x).hookCalls = g.hookCalls := by
  unfold OutPin.deleteLinksStep
  split <;> rfl

theorem mem_deleteLinksStep_in (g : Graph) (x : Link) (p : Nat) (l : Link) :
    some l ∈ (OutPin.deleteLinksStep g x).inLinks p ↔
      some l ∈ g.inLinks p ∧ ¬ (l = x ∧ p = x.right) := by
  unfold OutPin.deleteLinksStep
  by_cases hexp : g.expired x = true
  · rw [if_pos hexp]
    constructor
    · intro h
      refine ⟨h, ?_⟩
      rintro ⟨hl, hp⟩
      subst hl hp
      simp [Graph.expired] at hexp
      exact hexp h
    · exact fun h => h.1
  · rw [if_neg hexp]
    exact mem_deleteLink_in g x p l

theorem deleteLinksStep_in_sublist (g : Graph) (x : Link) (p : Nat) :
    ((OutPin.deleteLinksStep g x).inLinks p).Sublist (g.inLinks p) := by
  unfold OutPin.deleteLinksStep
  split
  · exact List.Sublist.refl _
  · exact deleteLink_in_sublist g x p

theorem foldl_deleteLinksStep (L : List Link) :
    ∀ g : Graph,
      (L.foldl OutPin.deleteLinksStep g).outLinks = g.outLinks ∧
      (L.foldl OutPin.deleteLinksStep g).registry = g.registry ∧
      (L.foldl OutPin.deleteLinksStep g).nextId = g.nextId ∧
      (L.foldl OutPin.deleteLinksStep g).hookCalls = g.hookCalls ∧
      (∀ p, ((L.foldl OutPin.deleteLinksStep g).inLinks p).Sublist (g.inLinks p)) ∧
      (∀ p l, some l ∈ (L.foldl OutPin.deleteLinksStep g).inLinks p ↔
        some l ∈ g.inLinks p ∧ ¬ (l ∈ L ∧ p = l.right)) := by
  induction L with
  | nil => intro g; simp
  | cons x L ih =>
    intro g
    obtain ⟨h1, h2, h3, h4, h5, h6⟩ := ih (OutPin.deleteLinksStep g x)
    rw [List.foldl_cons]
    refine ⟨by rw [h1, deleteLinksStep_out], by rw [h2, deleteLinksStep_registry],
      by rw [h3, deleteLinksStep_nextId], by rw [h4, deleteLinksStep_hookCalls],
      fun p => (h5 p).trans (deleteLinksStep_in_sublist g x p), ?_⟩
    intro p l
    rw [h6, mem_deleteLinksStep_in]
    constructor
    · rintro ⟨⟨ha, hb⟩, hc⟩
      refine ⟨ha, ?_⟩
      rintro ⟨hl, hp⟩
      rcases List.mem_cons.1 hl with hl | hl
      · exact hb ⟨hl, by rw [hp, hl]⟩
      · exact hc ⟨hl, hp⟩
    · rintro ⟨ha, hb⟩
      refine ⟨⟨ha, ?_⟩, ?_⟩
      · rintro ⟨hl, hp⟩
        exact hb ⟨by rw [hl]; exact List.mem_cons_self _ _, by rw [hp, hl]⟩
      · rintro ⟨hl, hp⟩
        exact hb ⟨List.mem_cons_of_mem _ hl, hp⟩

theorem mem_deleteLinks_in (A : Nat) (g : Graph) (p : Nat) (l : Link) :
    some l ∈ (OutPin.deleteLinks A g).inLinks p ↔
      some l ∈ g.inLinks p ∧ ¬ (l ∈ g.outLinks A ∧ p = l.right) :=
  (foldl_deleteLinksStep (g.outLinks A) g).2.2.2.2.2 p l

theorem deleteLinks_out_self (A : Nat) (g : Graph) : (OutPin.deleteLinks A g).outLinks A = [] := by
  simp [OutPin.deleteLinks, Graph.setOut]

/-- C5 (as stated, refuted): `addIN_uid` with a key whose hash is the identifier of a pin
already in the static input list does register: the list grows from one pin to two pins
with the same identifier; likewise `addOUT_uid`. -/
theorem C5_counterexample :
    (BaseNode.addIN_uid id 5 "in" 101 sampleNode).1.m_ins =
      [⟨100, 5, "in"⟩, ⟨101, 5, "in"⟩] ∧
    (BaseNode.addIN_uid id 5 "in" 101 sampleNode).1.m_ins ≠ sampleNode.m_ins ∧
    (BaseNode.addOUT_uid id 5 "out" 201 sampleNode).1.m_outs =
      [⟨200, 5, "out"⟩, ⟨201, 5, "out"⟩] ∧
    (BaseNode.addOUT_uid id 5 "out" 201 sampleNode).1.m_outs ≠ sampleNode.m_outs := by
  decide

/-- C5 (amended): `addIN_uid` always registers: it appends one new pin with identifier
`hash(key)` at the end of the static input list, whether or not a pin with that identifier
is already there, returns that pin and changes no other pin set; `addOUT_uid` does the same
on the static output list. So a key used in the other list is accepted, and so is a key
used in the same list. -/
theorem C5_add_always_appends {U : Type} (hash : U → Nat) (uid : U) (name : String)
    (addr : Nat) (n : BaseNode) :
    ((BaseNode.addIN_uid hash uid name addr n).1.m_ins = n.m_ins ++ [⟨addr, hash uid, name⟩] ∧
      (BaseNode.addIN_uid hash uid name addr n).2 = ⟨addr, hash uid, name⟩ ∧
      (BaseNode.addIN_uid hash uid name addr n).1.m_outs = n.m_outs ∧
      (BaseNode.addIN_uid hash uid name addr n).1.m_dynamicIns = n.m_dynamicIns ∧
      (BaseNode.addIN_uid hash uid name addr n).1.m_dynamicOuts = n.m_dynamicOuts) ∧
    ((BaseNode.addOUT_uid hash uid name addr n).1.m_outs = n.m_outs ++ [⟨addr, hash uid, name⟩] ∧
      (BaseNode.addOUT_uid hash uid name addr n).2 = ⟨addr, hash uid, name⟩ ∧
      (BaseNode.addOUT_uid hash uid name addr n).1.m_ins = n.m_ins ∧
      (BaseNode.addOUT_uid hash uid name addr n).1.m_dynamicIns = n.m_dynamicIns ∧
      (BaseNode.addOUT_uid hash uid name addr n).1.m_dynamicOuts = n.m_dynamicOuts) :=
  ⟨⟨rfl, rfl, rfl, rfl, rfl⟩, ⟨rfl, rfl, rfl, rfl, rfl⟩⟩

theorem find_uid_none (h : Nat) (l : List Pin) :
    l.find? (fun p => decide (p.uid = h)) = none ↔ ∀ p ∈ l, p.uid ≠ h := by
  rw [List.find?_eq_none]
  simp

theorem find_uid_some (h : Nat) (l : List Pin) (q : Pin)
    (hq : l.find? (fun p => decide (p.uid = h)) = some q) :
    ∃ pre post, l = pre ++ q :: post ∧ (∀ p ∈ pre, p.uid ≠ h) ∧ q.uid = h := by
  rw [List.find?_eq_some] at hq
  obtain ⟨h1, pre, post, h2, h3⟩ := hq
  refine ⟨pre, post, h2, ?_, by simpa using h1⟩
  intro p hp
  simpa using h3 p hp

/-- C6 (as stated, refuted): a node whose only pins with identifier 5 are dynamic has such
a pin among its input pins and among its output pins, and `inPin` and `outPin` violate their
assertion all the same. -/
theorem C6_counterexample :
    (∃ e ∈ dynamicNode.m_dynamicIns, e.2.uid = id 5) ∧
    BaseNode.inPin id 5 dynamicNode = Except.error "Pin UID not found!" ∧
    (∃ e ∈ dynamicNode.m_dynamicOuts, e.2.uid = id 5) ∧
    BaseNode.outPin id 5 dynamicNode = Except.error "Pin UID not found!" :=
  ⟨by decide, rfl, by decide, rfl⟩

/-- C6 (amended): `inPin(key)` violates its assertion exactly when no pin of the static
input list has identifier `hash(key)`; the dynamic pins are not searched. When the static
list has such a pin the lookup returns the first one, a pin of the static list whose
identifier is `hash(key)`. The same holds for `outPin` and the static output list. -/
theorem C6_lookup_static_only {U : Type} (hash : U → Nat) (uid : U) (n : BaseNode) :
    ((BaseNode.inPin hash uid n = Except.error "Pin UID not found!" ↔
        ∀ p ∈ n.m_ins, p.uid ≠ hash uid) ∧
      ((∃ p ∈ n.m_ins, p.uid = hash uid) →
        ∃ pre q post, n.m_ins = pre ++ q :: post ∧ (∀ p ∈ pre, p.uid ≠ hash uid) ∧
          q.uid = hash uid ∧ BaseNode.inPin hash uid n = Except.ok q)) ∧
    ((BaseNode.outPin hash uid n = Except.error "Pin UID not found!" ↔
        ∀ p ∈ n.m_outs, p.uid ≠ hash uid) ∧
      ((∃ p ∈ n.m_outs, p.uid = hash uid) →
        ∃ pre q post, n.m_outs = pre ++ q :: post ∧ (∀ p ∈ pre, p.uid ≠ hash uid) ∧
          q.uid = hash uid ∧ BaseNode.outPin hash uid n = Except.ok q)) := by
  have key : ∀ l : List Pin,
      ((match l.find? (fun p => decide (p.uid = hash uid)) with
          | some p => Except.ok p
          | none => Except.error "Pin UID not found!") = Except.error "Pin UID not found!" ↔
        ∀ p ∈ l, p.uid ≠ hash uid) ∧
      ((∃ p ∈ l, p.uid = hash uid) →
        ∃ pre q post, l = pre ++ q :: post ∧ (∀ p ∈ pre, p.uid ≠ hash uid) ∧
          q.uid = hash uid ∧
          (match l.find? (fun p => decide (p.uid = hash uid)) with
          | some p => Except.ok p
          | none => Except.error "Pin UID not found!") = Except.ok q) := by
    intro l
    cases hf : l.find? (fun p => decide (p.uid = hash uid)) with
    | none =>
      have hnone := (find_uid_none (hash uid) l).1 hf
      refine ⟨⟨fun _ => hnone, fun _ => rfl⟩, ?_⟩
      rintro ⟨p, hp, hpu⟩
      exact absurd hpu (hnone p hp)
    | some q =>
      obtain ⟨pre, post, h1, h2, h3⟩ := find_uid_some (hash uid) l q hf
      refine ⟨⟨fun h => (by cases h), fun h => ?_⟩, fun _ => ⟨pre, q, post, h1, h2, h3, rfl⟩⟩
      exact absurd h3 (h q (by rw [h1]; simp))
  exact ⟨key n.m_ins, key n.m_outs⟩

/-- Witness of the amended C6: the static input pin of `sampleNode` with identifier 5 is
found. -/
theorem C6_lookup_static_only_witness :
    ∃ pre q post, sampleNode.m_ins = pre ++ q :: post ∧ (∀ p ∈ pre, p.uid ≠ id 5) ∧
      q.uid = id 5 ∧ BaseNode.inPin id 5 sampleNode = Except.ok q :=
  (C6_lookup_static_only id 5 sampleNode).1.2 (by decide)

/-! ## Dynamic pins of a node -/

theorem showLoop_none (mark : Int) (h : Nat) (l : List (Int × Pin)) :
    showLoop mark h l = none ↔ ∀ e ∈ l, e.2.uid ≠ h := by
  induction l with
  | nil => simp [showLoop]
  | cons p rest ih =>
    unfold showLoop
    by_cases hp : p.2.uid = h
    · simp [hp]
    · rw [if_neg hp]
      cases hr : showLoop mark h rest with
      | none =>
        have := ih.1 hr
        simp only [List.mem_cons, forall_eq_or_imp, true_iff]
        exact ⟨hp, this⟩
      | some r =>
        obtain ⟨l1, q⟩ := r
        constructor
        · intro hc; cases hc
        · intro hall
          have hnone := ih.2 (fun e he => hall e (List.mem_cons_of_mem _ he))
          rw [hr] at hnone
          cases hnone

theorem showLoop_some (mark : Int) (h : Nat) (l l1 : List (Int × Pin)) (q : Pin)
    (hs : showLoop mark h l = some (l1, q)) :
    ∃ pre f post, l = pre ++ (f, q) :: post ∧ (∀ e ∈ pre, e.2.uid ≠ h) ∧ q.uid = h ∧
      l1 = pre ++ (mark, q) :: post := by
  induction l generalizing l1 with
  | nil => simp [showLoop] at hs
  | cons p rest ih =>
    unfold showLoop at hs
    by_cases hp : p.2.uid = h
    · rw [if_pos hp] at hs
      simp only [Option.some.injEq, Prod.mk.injEq] at hs
      obtain ⟨h1, h2⟩ := hs
      refine ⟨[], p.1, rest, ?_, by simp, by rw [← h2]; exact hp, by rw [← h1, h2]; rfl⟩
      rw [← h2]; rfl
    · rw [if_neg hp] at hs
      cases hr : showLoop mark h rest with
      | none => rw [hr] at hs; cases hs
      | some r =>
        obtain ⟨l2, q2⟩ := r
        rw [hr] at hs
        simp only [Option.some.injEq, Prod.mk.injEq] at hs
        obtain ⟨h1, h2⟩ := hs
        subst h2
        obtain ⟨pre, f, post, e1, e2, e3, e4⟩ := ih l2 hr
        refine ⟨p :: pre, f, post, by rw [e1]; rfl, ?_, e3, by rw [← h1, e4]; rfl⟩
        intro e he
        rcases List.mem_cons.1 he with he | he
        · rw [he]; exact hp
        · exact e2 e he

theorem shown_absent (mark : Int) (h : Nat) (fresh : Pin) (l : List (Int × Pin))
    (habs : ∀ e ∈ l, e.2.uid ≠ h) : shown mark h fresh l = l ++ [(mark, fresh)] := by
  unfold shown
  rw [(showLoop_none mark h l).2 habs]

theorem shown_present (mark : Int) (h : Nat) (fresh : Pin) (l : List (Int × Pin))
    (hex : ∃ e ∈ l, e.2.uid = h) :
    ∃ pre f q post, l = pre ++ (f, q) :: post ∧ (∀ e ∈ pre, e.2.uid ≠ h) ∧ q.uid = h ∧
      showLoop mark h l = some (pre ++ (mark, q) :: post, q) ∧
      shown mark h fresh l = pre ++ (mark, q) :: post := by
  cases hs : showLoop mark h l with
  | none =>
    obtain ⟨e, he, heu⟩ := hex
    exact absurd heu ((showLoop_none mark h l).1 hs e he)
  | some r =>
    obtain ⟨l1, q⟩ := r
    obtain ⟨pre, f, post, e1, e2, e3, e4⟩ := showLoop_some mark h l l1 q hs
    refine ⟨pre, f, q, post, e1, e2, e3, by rw [e4], ?_⟩
    unfold shown
    rw [hs, e4]

theorem countUid_shown (mark : Int) (h : Nat) (fresh : Pin) (hfresh : fresh.uid = h)
    (l : List (Int × Pin)) (h1 : Nat) :
    countUid h1 (shown mark h fresh l) =
      if h1 = h then max 1 (countUid h1 l) else countUid h1 l := by
  by_cases hex : ∃ e ∈ l, e.2.uid = h
  · obtain ⟨pre, f, q, post, e1, _, e3, _, e5⟩ := shown_present mark h fresh l hex
    have hsame : countUid h1 (shown mark h fresh l) = countUid h1 l := by
      rw [e5, e1]
      simp [countUid, List.countP_append, List.countP_cons]
    rw [hsame]
    split
    · rename_i heq
      have hpos : 0 < countUid h1 l := by
        unfold countUid
        rw [List.countP_pos_iff]
        obtain ⟨e, he, heu⟩ := hex
        exact ⟨e, he, by simp [heu, heq]⟩
      omega
    · rfl
  · push_neg at hex
    rw [shown_absent mark h fresh l hex]
    by_cases heq : h1 = h
    · rw [if_pos heq]
      have hz : countUid h1 l = 0 := by
        unfold countUid
        rw [List.countP_eq_zero]
        intro e he
        simp [heq, hex e he]
      have happ : countUid h1 (l ++ [(mark, fresh)]) = countUid h1 l + 1 := by
        simp [countUid, List.countP_append, hfresh, heq]
      rw [happ, hz]
      rfl
    · rw [if_neg heq]
      have hne : ¬ fresh.uid = h1 := by rw [hfresh]; exact fun h2 => heq h2.symm
      simp [countUid, List.countP_append, hne]

theorem showIN_uid_dyn {U T : Type} (hash : U → Nat) (val : Pin → T) (uid : U)
    (name : String) (addr : Nat) (n : BaseNode) :
    (BaseNode.showIN_uid hash val uid name addr n).1.m_dynamicIns =
      shown 1 (hash uid) ⟨addr, hash uid, name⟩ n.m_dynamicIns := by
  unfold BaseNode.showIN_uid shown
  dsimp only
  cases showLoop 1 (hash uid) n.m_dynamicIns with
  | none => rfl
  | some r => rfl

theorem showOUT_uid_dyn {U : Type} (hash : U → Nat) (uid : U)
    (name : String) (addr : Nat) (n : BaseNode) :
    (BaseNode.showOUT_uid hash uid name addr n).m_dynamicOuts =
      shown 2 (hash uid) ⟨addr, hash uid, name⟩ n.m_dynamicOuts := by
  unfold BaseNode.showOUT_uid shown
  dsimp only
  cases showLoop 2 (hash uid) n.m_dynamicOuts with
  | none => rfl
  | some r => rfl

theorem showIN_many_count {U T : Type} (hash : U → Nat) (val : Pin → T) (uid : U) :
    ∀ (calls : List (String × Nat)) (n : BaseNode), calls ≠ [] →
      countUid (hash uid) (showIN_many hash val uid calls n).m_dynamicIns =
        max 1 (countUid (hash uid) n.m_dynamicIns) := by
  intro calls
  induction calls with
  | nil => intro n h; exact absurd rfl h
  | cons a rest ih =>
    intro n _
    have hstep : countUid (hash uid)
        (BaseNode.showIN_uid hash val uid a.1 a.2 n).1.m_dynamicIns =
        max 1 (countUid (hash uid) n.m_dynamicIns) := by
      rw [showIN_uid_dyn, countUid_shown 1 (hash uid) _ rfl, if_pos rfl]
    unfold showIN_many
    by_cases hr : rest = []
    · subst hr
      exact hstep
    · rw [ih _ hr, hstep]
      omega

theorem showOUT_many_count {U : Type} (hash : U → Nat) (uid : U) :
    ∀ (calls : List (String × Nat)) (n : BaseNode), calls ≠ [] →
      countUid (hash uid) (showOUT_many hash uid calls n).m_dynamicOuts =
        max 1 (countUid (hash uid) n.m_dynamicOuts) := by
  intro calls
  induction calls with
  | nil => intro n h; exact absurd rfl h
  | cons a rest ih =>
    intro n _
    have hstep : countUid (hash uid)
        (BaseNode.showOUT_uid hash uid a.1 a.2 n).m_dynamicOuts =
        max 1 (countUid (hash uid) n.m_dynamicOuts) := by
      rw [showOUT_uid_dyn, countUid_shown 2 (hash uid) _ rfl, if_pos rfl]
    unfold showOUT_many
    by_cases hr : rest = []
    · subst hr
      exact hstep
    · rw [ih _ hr, hstep]
      omega

/-- C7: `showIN_uid(key)` on a dynamic input set that holds a pin with identifier
`hash(key)` keeps every entry in place with the same pin object, sets the marker of the first
such entry to 1, and returns the value held by that pin; on a set without such a pin it
appends one entry with marker 1 and identifier `hash(key)`. It changes no other pin set.
After one or more calls with the same key the number of dynamic pins with that identifier
is the larger of 1 and the number before, hence exactly one when the set held at most one;
and a set without a repeated identifier, as every set built by these calls from the empty
set is, stays without one. The same holds for `showOUT_uid` on the dynamic output set, with
marker 2 and no returned value. -/
theorem C7_show_marks_or_appends {U T : Type} (hash : U → Nat) (val : Pin → T) (uid : U)
    (name : String) (addr : Nat) (n : BaseNode) :
    (((∃ e ∈ n.m_dynamicIns, e.2.uid = hash uid) →
        ∃ pre f q post, n.m_dynamicIns = pre ++ (f, q) :: post ∧
          (∀ e ∈ pre, e.2.uid ≠ hash uid) ∧ q.uid = hash uid ∧
          (BaseNode.showIN_uid hash val uid name addr n).1.m_dynamicIns =
            pre ++ (1, q) :: post ∧
          (BaseNode.showIN_uid hash val uid name addr n).2 = val q) ∧
      ((∀ e ∈ n.m_dynamicIns, e.2.uid ≠ hash uid) →
        (BaseNode.showIN_uid hash val uid name addr n).1.m_dynamicIns =
          n.m_dynamicIns ++ [(1, ⟨addr, hash uid, name⟩)] ∧
        (BaseNode.showIN_uid hash val uid name addr n).2 = val ⟨addr, hash uid, name⟩) ∧
      ((BaseNode.showIN_uid hash val uid name addr n).1.m_ins = n.m_ins ∧
        (BaseNode.showIN_uid hash val uid name addr n).1.m_outs = n.m_outs ∧
        (BaseNode.showIN_uid hash val uid name addr n).1.m_dynamicOuts = n.m_dynamicOuts) ∧
      (∀ calls : List (String × Nat), calls ≠ [] →
        countUid (hash uid) (showIN_many hash val uid calls n).m_dynamicIns =
          max 1 (countUid (hash uid) n.m_dynamicIns) ∧
        (countUid (hash uid) n.m_dynamicIns ≤ 1 →
          countUid (hash uid) (showIN_many hash val uid calls n).m_dynamicIns = 1)) ∧
      ((∀ h1, countUid h1 n.m_dynamicIns ≤ 1) →
        ∀ h1, countUid h1 (BaseNode.showIN_uid hash val uid name addr n).1.m_dynamicIns ≤ 1)) ∧
    (((∃ e ∈ n.m_dynamicOuts, e.2.uid = hash uid) →
        ∃ pre f q post, n.m_dynamicOuts = pre ++ (f, q) :: post ∧
          (∀ e ∈ pre, e.2.uid ≠ hash uid) ∧ q.uid = hash uid ∧
          (BaseNode.showOUT_uid hash uid name addr n).m_dynamicOuts = pre ++ (2, q) :: post) ∧
      ((∀ e ∈ n.m_dynamicOuts, e.2.uid ≠ hash uid) →
        (BaseNode.showOUT_uid hash uid name addr n).m_dynamicOuts =
          n.m_dynamicOuts ++ [(2, ⟨addr, hash uid, name⟩)]) ∧
      ((BaseNode.showOUT_uid hash uid name addr n).m_ins = n.m_ins ∧
        (BaseNode.showOUT_uid hash uid name addr n).m_outs = n.m_outs ∧
        (BaseNode.showOUT_uid hash uid name addr n).m_dynamicIns = n.m_dynamicIns) ∧
      (∀ calls : List (String × Nat), calls ≠ [] →
        countUid (hash uid) (showOUT_many hash uid calls n).m_dynamicOuts =
          max 1 (countUid (hash uid) n.m_dynamicOuts) ∧
        (countUid (hash uid) n.m_dynamicOuts ≤ 1 →
          countUid (hash uid) (showOUT_many hash uid calls n).m_dynamicOuts = 1)) ∧
      ((∀ h1, countUid h1 n.m_dynamicOuts ≤ 1) →
        ∀ h1, countUid h1 (BaseNode.showOUT_uid hash uid name addr n).m_dynamicOuts ≤ 1)) := by
  have hkeep : ∀ (mark : Int) (l : List (Int × Pin)), (∀ h1, countUid h1 l ≤ 1) →
      ∀ h1, countUid h1 (shown mark (hash uid) ⟨addr, hash uid, name⟩ l) ≤ 1 := by
    intro mark l hl h1
    rw [countUid_shown mark (hash uid) _ rfl]
    have := hl h1
    split <;> omega
  refine ⟨⟨?_, ?_, ?_, ?_, ?_⟩, ⟨?_, ?_, ?_, ?_, ?_⟩⟩
  · intro hex
    obtain ⟨pre, f, q, post, e1, e2, e3, e4, _⟩ :=
      shown_present 1 (hash uid) ⟨addr, hash uid, name⟩ n.m_dynamicIns hex
    refine ⟨pre, f, q, post, e1, e2, e3, ?_, ?_⟩
    · unfold BaseNode.showIN_uid
      dsimp only
      rw [e4]
    · unfold BaseNode.showIN_uid
      dsimp only
      rw [e4]
  · intro habs
    have hnone := (showLoop_none 1 (hash uid) n.m_dynamicIns).2 habs
    constructor
    · unfold BaseNode.showIN_uid
      dsimp only
      rw [hnone]
    · unfold BaseNode.showIN_uid
      dsimp only
      rw [hnone]
  · unfold BaseNode.showIN_uid
    dsimp only
    cases showLoop 1 (hash uid) n.m_dynamicIns with
    | none => exact ⟨rfl, rfl, rfl⟩
    | some r => exact ⟨rfl, rfl, rfl⟩
  · intro calls hcalls
    have h := showIN_many_count hash val uid calls n hcalls
    refine ⟨h, fun hle => ?_⟩
    rw [h]; omega
  · intro hl h1
    rw [showIN_uid_dyn]
    exact hkeep 1 _ hl h1
  · intro hex
    obtain ⟨pre, f, q, post, e1, e2, e3, e4, _⟩ :=
      shown_present 2 (hash uid) ⟨addr, hash uid, name⟩ n.m_dynamicOuts hex
    refine ⟨pre, f, q, post, e1, e2, e3, ?_⟩
    unfold BaseNode.showOUT_uid
    dsimp only
    rw [e4]
  · intro habs
    have hnone := (showLoop_none 2 (hash uid) n.m_dynamicOuts).2 habs
    unfold BaseNode.showOUT_uid
    dsimp only
    rw [hnone]
  · unfold BaseNode.showOUT_uid
    dsimp only
    cases showLoop 2 (hash uid) n.m_dynamicOuts with
    | none => exact ⟨rfl, rfl, rfl⟩
    | some r => exact ⟨rfl, rfl, rfl⟩
  · intro calls hcalls
    have h := showOUT_many_count hash uid calls n hcalls
    refine ⟨h, fun hle => ?_⟩
    rw [h]; omega
  · intro hl h1
    rw [showOUT_uid_dyn]
    exact hkeep 2 _ hl h1

/-- Witness of C7: the dynamic input pin of `dynamicNode` with identifier 5 is found again,
and a call for identifier 6 appends a pin. -/
theorem C7_show_marks_or_appends_witness :
    (∃ pre f q post, dynamicNode.m_dynamicIns = pre ++ (f, q) :: post ∧
      (∀ e ∈ pre, e.2.uid ≠ id 5) ∧ q.uid = id 5 ∧
      (BaseNode.showIN_uid id Pin.addr 5 "in" 301 dynamicNode).1.m_dynamicIns =
        pre ++ (1, q) :: post ∧
      (BaseNode.showIN_uid id Pin.addr 5 "in" 301 dynamicNode).2 = q.addr) ∧
    (BaseNode.showIN_uid id Pin.addr 6 "new" 301 dynamicNode).1.m_dynamicIns =
      dynamicNode.m_dynamicIns ++ [(1, ⟨301, id 6, "new"⟩)] :=
  ⟨(C7_show_marks_or_appends id Pin.addr 5 "in" 301 dynamicNode).1.1 (by decide),
    ((C7_show_marks_or_appends id Pin.addr 6 "new" 301 dynamicNode).1.2.1 (by decide)).1⟩

/-! ## Dropping a static pin -/

theorem dropLoop_append (h : Nat) (q : Pin) (post : List Pin) (hq : q.uid = h) :
    ∀ pre : List Pin, (∀ p ∈ pre, p.uid ≠ h) → dropLoop h (pre ++ q :: post) = pre ++ post := by
  intro pre
  induction pre with
  | nil => intro _; simp [dropLoop, hq]
  | cons a pre ih =>
    intro hpre
    have ha : a.uid ≠ h := hpre a (List.mem_cons_self _ _)
    have := ih (fun p hp => hpre p (List.mem_cons_of_mem _ hp))
    simp [dropLoop, ha, this]

/-- C11: for an input pin `B` and another pin `A`, `A.createLink(B)` on the output side
returns exactly the graph that `B.createLink(A)` returns: the same link lists, registry,
hook calls, notifications and allocation counter. -/
theorem C11_output_side_delegates (P : Pins) (g : Graph) (A B : Nat)
    (hA : P.getType A = PinType.PinType_Output) (hB : P.getType B = PinType.PinType_Input) :
    A ≠ B ∧ OutPin.createLink P A B g = InPin.createLink P B A g ∧
    Pin.createLink P A B g = Pin.createLink P B A g := by
  have hne : A ≠ B := by
    intro h; rw [h, hB] at hA; exact PinType.noConfusion hA
  have hguard : ¬ (B = A ∨ P.getType B = PinType.PinType_Output) := by
    rintro (h | h)
    · exact hne h.symm
    · rw [hB] at h; exact PinType.noConfusion h
  have hout : OutPin.createLink P A B g = InPin.createLink P B A g := by
    unfold OutPin.createLink
    rw [if_neg hguard]
  refine ⟨hne, hout, ?_⟩
  unfold Pin.createLink
  rw [hA, hB]
  exact hout

/-- Witness of C11 on the sample pins: output pin 0 and input pin 11 in the empty graph. -/
theorem C11_output_side_delegates_witness :
    OutPin.createLink samplePins 0 11 emptyGraph = InPin.createLink samplePins 11 0 emptyGraph :=
  (C11_output_side_delegates samplePins emptyGraph 0 11 (by decide) (by decide)).2.1

theorem createLink_in_mono (P : Pins) (B A : Nat) (g : Graph) (p : Nat) (k : Link)
    (h : some k ∈ g.inLinks p) : some k ∈ (InPin.createLink P B A g).inLinks p := by
  rcases InPin.createLink_cases P B A g with h0 | ⟨_, _, _, _, _, h6⟩
  · rw [h0]; exact h
  · rw [h6]; exact (mem_linked_in P B A g p k).2 (Or.inl h)

theorem createLink_has_source (P : Pins) (B A : Nat) (g : Graph)
    (hA : P.getType A = PinType.PinType_Output) (hB : P.getType B = PinType.PinType_Input)
    (hnode : P.getParent B ≠ P.getParent A) (hfilter : P.m_filter B g A B = true) :
    ∃ k, some k ∈ (InPin.createLink P B A g).inLinks B ∧ k.left = A := by
  have hne : A ≠ B := by
    intro h; rw [h, hB] at hA; exact PinType.noConfusion hA
  have hty : P.getType A ≠ PinType.PinType_Input := by
    rw [hA]; exact fun h => PinType.noConfusion h
  have hpar : ¬ (P.getParent B = P.getParent A ∧ P.m_allowSelfConnection B = false) :=
    fun h => hnode h.1
  by_cases hdup : (g.inLinks B).any (linkFrom A) = true
  · rw [InPin.createLink_reject P B A g (Or.inr (Or.inr (Or.inl hdup)))]
    rw [List.any_eq_true] at hdup
    obtain ⟨e, he, hl⟩ := hdup
    cases e with
    | none => simp [linkFrom] at hl
    | some k => exact ⟨k, he, by simpa [linkFrom] using hl⟩
  · rw [InPin.createLink_accept P B A g hne hty hpar (by simpa using hdup) hfilter]
    exact ⟨⟨g.nextId, A, B⟩, (mem_linked_in P B A g B _).2 (Or.inr ⟨rfl, rfl⟩), rfl⟩

theorem createLink_appends (P : Pins) (g : Graph) (A B : Nat)
    (hA : P.getType A = PinType.PinType_Output) (hB : P.getType B = PinType.PinType_Input)
    (hnode : P.getParent B ≠ P.getParent A)
    (hnew : ∀ l, some l ∈ g.inLinks B → l.left ≠ A)
    (hfilter : P.m_filter B g A B = true) :
    (InPin.createLink P B A g).inLinks B = g.inLinks B ++ [some ⟨g.nextId, A, B⟩] ∧
    (InPin.createLink P B A g).nextId = g.nextId + 1 := by
  have hne : A ≠ B := by
    intro h; rw [h, hB] at hA; exact PinType.noConfusion hA
  have hty : P.getType A ≠ PinType.PinType_Input := by
    rw [hA]; exact fun h => PinType.noConfusion h
  have hpar : ¬ (P.getParent B = P.getParent A ∧ P.m_allowSelfConnection B = false) :=
    fun h => hnode h.1
  rw [InPin.createLink_accept P B A g hne hty hpar ((any_linkFrom_false A _).2 hnew) hfilter]
  exact ⟨by simp [linked], rfl⟩

/-- C12: for an input pin `B` and two distinct output pins `A1`, `A2` of other nodes whose
pairs the filter of `B` accepts, after `B.createLink(A1)` and then `B.createLink(A2)` the
list of `B` holds a link with source `A1` and another link with source `A2`; when `B` held
no link from either before, exactly the two new links `A1 -> B` and `A2 -> B` have been
appended to its list, in that order. -/
theorem C12_two_sources_on_one_input (P : Pins) (g : Graph) (A1 A2 B : Nat)
    (hA1 : P.getType A1 = PinType.PinType_Output) (hA2 : P.getType A2 = PinType.PinType_Output)
    (hB : P.getType B = PinType.PinType_Input) (hne : A1 ≠ A2)
    (hnode1 : P.getParent B ≠ P.getParent A1) (hnode2 : P.getParent B ≠ P.getParent A2)
    (hfilter1 : P.m_filter B g A1 B = true)
    (hfilter2 : P.m_filter B (InPin.createLink P B A1 g) A2 B = true) :
    (∃ k1 k2, k1 ≠ k2 ∧ k1.left = A1 ∧ k2.left = A2 ∧
      some k1 ∈ (InPin.createLink P B A2 (InPin.createLink P B A1 g)).inLinks B ∧
      some k2 ∈ (InPin.createLink P B A2 (InPin.createLink P B A1 g)).inLinks B) ∧
    ((∀ l, some l ∈ g.inLinks B → l.left ≠ A1 ∧ l.left ≠ A2) →
      (InPin.createLink P B A2 (InPin.createLink P B A1 g)).inLinks B =
        g.inLinks B ++ [some ⟨g.nextId, A1, B⟩, some ⟨g.nextId + 1, A2, B⟩]) := by
  constructor
  · obtain ⟨k1, h1, hl1⟩ := createLink_has_source P B A1 g hA1 hB hnode1 hfilter1
    obtain ⟨k2, h2, hl2⟩ :=
      createLink_has_source P B A2 (InPin.createLink P B A1 g) hA2 hB hnode2 hfilter2
    refine ⟨k1, k2, ?_, hl1, hl2, createLink_in_mono P B A2 _ B k1 h1, h2⟩
    intro h
    rw [h, hl2] at hl1
    exact hne hl1.symm
  · intro hfree
    have e1 := createLink_appends P g A1 B hA1 hB hnode1
      (fun l hl => (hfree l hl).1) hfilter1
    have hfree2 : ∀ l, some l ∈ (InPin.createLink P B A1 g).inLinks B → l.left ≠ A2 := by
      intro l hl
      rw [e1.1, List.mem_append, List.mem_singleton] at hl
      rcases hl with hl | hl
      · exact (hfree l hl).2
      · cases hl; exact hne
    have e2 := createLink_appends P (InPin.createLink P B A1 g) A2 B hA2 hB hnode2
      hfree2 hfilter2
    rw [e2.1, e1.1, e1.2]
    simp

/-- Witness of C12 on the sample pins: output pins 0 and 2 of node 0 and input pin 11 of
node 1, from the empty graph. -/
theorem C12_two_sources_on_one_input_witness :
    (InPin.createLink samplePins 11 2 (InPin.createLink samplePins 11 0 emptyGraph)).inLinks 11 =
      emptyGraph.inLinks 11 ++ [some ⟨emptyGraph.nextId, 0, 11⟩,
        some ⟨emptyGraph.nextId + 1, 2, 11⟩] :=
  (C12_two_sources_on_one_input samplePins emptyGraph 0 2 11 (by decide) (by decide)
    (by decide) (by decide) (by decide) (by decide) rfl rfl).2
    (by intro l hl; simp [emptyGraph] at hl)

/-! ## Removal of all links of an output pin -/

theorem firsts_filter (p : Link → Bool) (l : List Link) :
    firsts (l.filter p) = (firsts l).filter p := by
  induction l with
  | nil => rfl
  | cons a l ih =>
    by_cases ha : p a = true
    · rw [List.filter_cons_of_pos ha]
      simp only [firsts]
      rw [List.filter_cons_of_pos ha, ih, List.filter_filter, List.filter_filter]
      congr 1
      apply List.filter_congr
      intro x _
      exact Bool.and_comm _ _
    · rw [List.filter_cons_of_neg ha]
      simp only [firsts]
      rw [List.filter_cons_of_neg ha, ih, List.filter_filter]
      apply List.filter_congr
      intro x _
      by_cases hx : x = a
      · rw [hx]; simp [ha]
      · simp [hx]

theorem firsts_nodup (l : List Link) (h : l.Nodup) : firsts l = l := by
  induction l with
  | nil => rfl
  | cons a l ih =>
    rw [List.nodup_cons] at h
    simp only [firsts]
    rw [ih h.2, List.filter_eq_self.2]
    intro x hx
    have : x ≠ a := fun hxa => h.1 (hxa ▸ hx)
    simp [this]

theorem deleteLinksStep_expired (g : Graph) (k x : Link) (hk : g.expired k = false) :
    (!(OutPin.deleteLinksStep g k).expired x) = (!g.expired x && decide (x ≠ k)) := by
  unfold OutPin.deleteLinksStep
  rw [if_neg (by rw [hk]; exact Bool.false_ne_true)]
  by_cases hx : x = k
  · subst hx
    rw [expired_deleteLink_self]
    simp
  · rw [expired_deleteLink_other g k x hx]
    simp [hx]

theorem foldl_deleteLinksStep_notified (L : List Link) :
    ∀ g : Graph, (L.foldl OutPin.deleteLinksStep g).notified =
      g.notified ++ (firsts (L.filter (fun k => !g.expired k))).map (fun k => (k.right, k)) := by
  induction L with
  | nil => intro g; simp [firsts]
  | cons k L ih =>
    intro g
    rw [List.foldl_cons, ih]
    by_cases hk : g.expired k = true
    · have hstep : OutPin.deleteLinksStep g k = g := by
        unfold OutPin.deleteLinksStep; rw [if_pos hk]
      rw [hstep, List.filter_cons_of_neg (by simp [hk])]
    · have hkf : g.expired k = false := by simpa using hk
      have hnot : (OutPin.deleteLinksStep g k).notified = g.notified ++ [(k.right, k)] := by
        unfold OutPin.deleteLinksStep
        rw [if_neg hk]
        rfl
      have hfil : L.filter (fun x => !(OutPin.deleteLinksStep g k).expired x) =
          (L.filter (fun x => !g.expired x)).filter (fun x => decide (x ≠ k)) := by
        rw [List.filter_filter]
        apply List.filter_congr
        intro x _
        rw [deleteLinksStep_expired g k x hkf, Bool.and_comm]
      rw [hnot, hfil, firsts_filter, List.filter_cons_of_pos (by simp [hkf])]
      simp [firsts]

/-- C16: after `deleteLinks()` on an output pin its list is empty, so `isConnected()` is
false; the destination pins notified are those of the entries that were not expired, in
list order, one notification per link (a link the list holds twice is expired when the loop
reaches its second entry); an expired entry causes no notification; and every link of the
list is gone from the list of its destination pin. -/
theorem C16_deleteLinks_empties_and_notifies (g : Graph) (A : Nat) :
    (OutPin.deleteLinks A g).outLinks A = [] ∧
    OutPin.isConnected A (OutPin.deleteLinks A g) = false ∧
    (OutPin.deleteLinks A g).notified = g.notified ++
      (firsts ((g.outLinks A).filter (fun k => !g.expired k))).map (fun k => (k.right, k)) ∧
    ((g.outLinks A).Nodup → (OutPin.deleteLinks A g).notified = g.notified ++
      ((g.outLinks A).filter (fun k => !g.expired k)).map (fun k => (k.right, k))) ∧
    (∀ k, k ∈ g.outLinks A → some k ∉ (OutPin.deleteLinks A g).inLinks k.right) := by
  have hnot : (OutPin.deleteLinks A g).notified = g.notified ++
      (firsts ((g.outLinks A).filter (fun k => !g.expired k))).map (fun k => (k.right, k)) :=
    foldl_deleteLinksStep_notified (g.outLinks A) g
  refine ⟨deleteLinks_out_self A g, ?_, hnot, ?_, ?_⟩
  · unfold OutPin.isConnected
    rw [deleteLinks_out_self]
    rfl
  · intro hnd
    rw [hnot, firsts_nodup _ (hnd.filter _)]
  · intro k hk
    rw [mem_deleteLinks_in]
    exact fun h => h.2 ⟨hk, rfl⟩

/-! ## Frame of dropping a static pin -/

theorem dropLoop_none (h : Nat) (l : List Pin) (hl : ∀ p ∈ l, p.uid ≠ h) : dropLoop h l = l := by
  induction l with
  | nil => rfl
  | cons a l ih =>
    have ha : a.uid ≠ h := hl a (List.mem_cons_self _ _)
    simp [dropLoop, ha, ih (fun p hp => hl p (List.mem_cons_of_mem _ hp))]

/-- C17: `dropIN(key)` removes from the static input list the first pin whose identifier is
`hash(key)` and nothing else: the pins before it and after it (a later pin with the same
identifier included) keep their order; without such a pin the list is unchanged; the static
output list and both dynamic sets are untouched. `dropOUT(key)` does the same on the static
output list and leaves the static input list and both dynamic sets untouched. -/
theorem C17_drop_removes_first_only {U : Type} (hash : U → Nat) (uid : U) (n : BaseNode) :
    ((∀ pre q post, n.m_ins = pre ++ q :: post → (∀ p ∈ pre, p.uid ≠ hash uid) →
        q.uid = hash uid → (n.dropIN hash uid).m_ins = pre ++ post) ∧
      ((∀ p ∈ n.m_ins, p.uid ≠ hash uid) → (n.dropIN hash uid).m_ins = n.m_ins) ∧
      (n.dropIN hash uid).m_outs = n.m_outs ∧
      (n.dropIN hash uid).m_dynamicIns = n.m_dynamicIns ∧
      (n.dropIN hash uid).m_dynamicOuts = n.m_dynamicOuts) ∧
    ((∀ pre q post, n.m_outs = pre ++ q :: post → (∀ p ∈ pre, p.uid ≠ hash uid) →
        q.uid = hash uid → (n.dropOUT hash uid).m_outs = pre ++ post) ∧
      ((∀ p ∈ n.m_outs, p.uid ≠ hash uid) → (n.dropOUT hash uid).m_outs = n.m_outs) ∧
      (n.dropOUT hash uid).m_ins = n.m_ins ∧
      (n.dropOUT hash uid).m_dynamicIns = n.m_dynamicIns ∧
      (n.dropOUT hash uid).m_dynamicOuts = n.m_dynamicOuts) := by
  refine ⟨⟨?_, ?_, rfl, rfl, rfl⟩, ⟨?_, ?_, rfl, rfl, rfl⟩⟩
  · intro pre q post h1 h2 h3
    show dropLoop (hash uid) n.m_ins = pre ++ post
    rw [h1]; exact dropLoop_append (hash uid) q post h3 pre h2
  · intro h
    exact dropLoop_none (hash uid) n.m_ins h
  · intro pre q post h1 h2 h3
    show dropLoop (hash uid) n.m_outs = pre ++ post
    rw [h1]; exact dropLoop_append (hash uid) q post h3 pre h2
  · intro h
    exact dropLoop_none (hash uid) n.m_outs h

/-- Witness of C17: of the two static output pins of `twinNode` with identifier 5 only the
first is removed. -/
theorem C17_drop_removes_first_only_witness :
    (twinNode.dropOUT id 5).m_outs = [] ++ [⟨0, 5, "second"⟩] :=
  (C17_drop_removes_first_only id 5 twinNode).2.1 [] ⟨20, 5, "first"⟩ [⟨0, 5, "second"⟩]
    rfl (by simp) rfl

/-- Witness of C16 on the sample graph: the live link 0 -> 11 is notified to pin 11, the
expired reference to 0 -> 13 is not, and the list of output pin 0 ends empty. -/
theorem C16_deleteLinks_empties_and_notifies_witness :
    (OutPin.deleteLinks 0 sampleGraph).outLinks 0 = [] ∧
    (OutPin.deleteLinks 0 sampleGraph).notified = [(11, ⟨0, 0, 11⟩)] := by
  have h := C16_deleteLinks_empties_and_notifies sampleGraph 0
  refine ⟨h.1, ?_⟩
  rw [h.2.2.1]
  decide

/-! ## Termination of the removal loop -/

/-- With no more fuel than entries left to examine the loop does not return: every
iteration examines one entry. -/
theorem deleteLinkLoop_short (A : Nat) (k : Link) :
    ∀ (fuel : Nat) (rest pre : List Link) (g : Graph),
      g.outLinks A = pre ++ rest → pre.length < UINT_SIZE →
      (∀ x ∈ pre, keeps g k x = true) → fuel ≤ rest.length →
      OutPin.deleteLinkLoop A k fuel pre.length g = none := by
  intro fuel
  induction fuel with
  | zero => intro rest pre g _ _ _ _; rfl
  | succ f ih =>
    intro rest pre g hL hi hpre hfuel
    cases rest with
    | nil => simp at hfuel
    | cons e rest =>
      have hf : f ≤ rest.length := by simpa using hfuel
      have hget : (g.outLinks A)[pre.length]? = some e := by
        rw [hL]; exact getElem?_at_length pre rest e
      have herase : (g.outLinks A).eraseIdx pre.length = pre ++ rest := by
        rw [hL]; exact eraseIdx_at_length pre rest e
      unfold OutPin.deleteLinkLoop
      rw [hget]
      simp only
      by_cases hexp : g.expired e = true
      · rw [if_pos hexp, uintInc_uintDec _ hi, herase]
        have hk : keeps (g.setOut A (pre ++ rest)) k = keeps g k :=
          keeps_congr _ _ _ (fun e _ => rfl)
        exact ih rest pre (g.setOut A (pre ++ rest)) (by simp [Graph.setOut]) hi
          (by rw [hk]; exact hpre) hf
      · rw [if_neg hexp]
        have hexpf : g.expired e = false := by simpa using hexp
        by_cases hek : e = k
        · rw [if_pos hek]
          subst hek
          have hout : (InPin.deleteLink e.right e g).outLinks A = g.outLinks A := rfl
          rw [uintInc_uintDec _ hi, hout, herase]
          have hk : keeps ((InPin.deleteLink e.right e g).setOut A (pre ++ rest)) e =
              keeps g e :=
            keeps_congr _ _ _ (fun x hx => by
              rw [expired_setOut]; exact expired_deleteLink_other g e x hx)
          exact ih rest pre ((InPin.deleteLink e.right e g).setOut A (pre ++ rest))
            (by simp [Graph.setOut]) hi (by rw [hk]; exact hpre) hf
        · rw [if_neg hek]
          have hke : keeps g k e = true := by simp [keeps, hexpf, hek]
          by_cases hwrap : pre.length + 1 < UINT_SIZE
          · rw [uintInc_eq _ hwrap]
            have hpre1 : ∀ x ∈ pre ++ [e], keeps g k x = true := by
              intro x hx
              rcases List.mem_append.1 hx with hx | hx
              · exact hpre x hx
              · rw [List.mem_singleton] at hx; rw [hx]; exact hke
            have := ih rest (pre ++ [e]) g (by simp [hL]) (by simpa using hwrap) hpre1 hf
            simpa using this
          · have hlen : pre.length + 1 = UINT_SIZE := by omega
            have hzero : uintInc pre.length = 0 := by
              unfold uintInc; rw [hlen]; simp [UINT_SIZE]
            rw [hzero]
            exact deleteLinkLoop_stuck A k g (by
              intro j hj
              by_cases hjp : j < pre.length
              · refine ⟨pre[j], ?_, hpre _ (List.getElem_mem _)⟩
                rw [hL, List.getElem?_append_left hjp, List.getElem?_eq_getElem hjp]
              · have hjeq : j = pre.length := by omega
                exact ⟨e, by rw [hjeq]; exact hget, hke⟩) f 0 (by simp [UINT_SIZE])

theorem hugeGraph_out : hugeGraph.outLinks 0 = hugeList := by
  simp only [hugeGraph, if_true]

theorem hugeGraph_entries (j : Nat) (hj : j < UINT_SIZE) :
    ∃ x, (hugeGraph.outLinks 0)[j]? = some x ∧ keeps hugeGraph ⟨0, 0, 2⟩ x = true := by
  refine ⟨⟨j, 0, 2 * j + 1⟩, ?_, ?_⟩
  · rw [hugeGraph_out]
    unfold hugeList
    rw [List.getElem?_map, List.getElem?_range hj]
    rfl
  · have hin : hugeGraph.inLinks (2 * j + 1) = [some ⟨(2 * j + 1) / 2, 0, 2 * j + 1⟩] := by
      show (if (2 * j + 1) % 2 = 1 then [some (⟨(2 * j + 1) / 2, 0, 2 * j + 1⟩ : Link)] else []) = _
      rw [if_pos (by omega)]
    have hdiv : (2 * j + 1) / 2 = j := by omega
    have hne : (⟨j, 0, 2 * j + 1⟩ : Link) ≠ ⟨0, 0, 2⟩ := by
      intro h
      have h2 : 2 * j + 1 = 2 := congrArg Link.right h
      omega
    unfold keeps Graph.expired
    rw [show (⟨j, 0, 2 * j + 1⟩ : Link).right = 2 * j + 1 from rfl, hin, hdiv]
    simp [hne]

/-- C18 (as stated, refuted): output pin 0 of `hugeGraph` holds a finite list of 2^32 live
links; `deleteLink` of a link that is not in the list removes nothing, the index runs up to
2^32 - 1, the increment wraps it to 0, and the loop never returns, whatever the fuel. -/
theorem C18_counterexample :
    (hugeGraph.outLinks 0).length = UINT_SIZE ∧
    (∀ fuel, OutPin.deleteLink fuel 0 ⟨0, 0, 2⟩ hugeGraph = none) := by
  constructor
  · rw [hugeGraph_out]
    unfold hugeList
    rw [List.length_map, List.length_range]
  · intro fuel
    exact deleteLinkLoop_stuck 0 ⟨0, 0, 2⟩ hugeGraph hugeGraph_entries fuel 0
      (by simp [UINT_SIZE])

/-- C18 (amended): when fewer than 2^32 entries of the list `L` of an output pin survive
`deleteLink(k)` (so for every list shorter than 2^32), the loop returns after exactly one
iteration per entry of `L`: it returns with fuel `|L| + 1` and with no less, and it leaves
`L` without any expired entry and any entry for `k`, so no entry is skipped. When an entry is
erased the index, decremented modulo 2^32 and incremented again, is back at its value; at
index 0 it passes through 2^32 - 1. -/
theorem C18_loop_terminates (g : Graph) (A : Nat) (k : Link)
    (hlen : ((g.outLinks A).filter
      (fun e => !g.expired e && decide (e ≠ k))).length < UINT_SIZE) :
    (∃ g1, OutPin.deleteLink ((g.outLinks A).length + 1) A k g = some g1 ∧
      g1.outLinks A = (g.outLinks A).filter (fun e => !g.expired e && decide (e ≠ k))) ∧
    (∀ fuel, fuel ≤ (g.outLinks A).length → OutPin.deleteLink fuel A k g = none) ∧
    (∀ i, i < UINT_SIZE → uintInc (uintDec i) = i) ∧
    uintDec 0 = UINT_SIZE - 1 ∧ uintInc (UINT_SIZE - 1) = 0 := by
  refine ⟨⟨afterDeleteLink A k g, deleteLink_eq A k g _ hlen (Nat.lt_succ_self _), ?_⟩, ?_,
    uintInc_uintDec, by decide, by decide⟩
  · rw [afterDeleteLink_out]; rfl
  · intro fuel hfuel
    exact deleteLinkLoop_short A k fuel (g.outLinks A) [] g (by simp) (by simp [UINT_SIZE])
      (by simp) hfuel

/-- Witness of the amended C18 on the sample graph, whose output pin 0 holds two entries:
the loop returns with fuel 3. -/
theorem C18_loop_terminates_witness :
    ∃ g1, OutPin.deleteLink ((sampleGraph.outLinks 0).length + 1) 0 ⟨0, 0, 11⟩ sampleGraph =
        some g1 ∧
      g1.outLinks 0 = (sampleGraph.outLinks 0).filter
        (fun e => !sampleGraph.expired e && decide (e ≠ ⟨0, 0, 11⟩)) :=
  (C18_loop_terminates sampleGraph 0 ⟨0, 0, 11⟩ (by decide)).1

/-! ## Connector curve -/

theorem ImVec2.add_def {F : Type} [Add F] (a b : ImVec2 F) : a + b = ⟨a.x + b.x, a.y + b.y⟩ :=
  rfl

theorem ImVec2.sub_def {F : Type} [Sub F] (a b : ImVec2 F) : a - b = ⟨a.x - b.x, a.y - b.y⟩ :=
  rfl

/-- The first branch of `smart_bezier`. -/
theorem smart_bezier_side {F : Type} [LinearOrderedField F] (sqrtf : F → F) (p1 p2 : ImVec2 F)
    (h : p1.x - p2.x > |p2.y - p1.y| ∧ |p2.y - p1.y| < 60) :
    smart_bezier sqrtf p1 p2 =
      (p1 + ⟨max 80 (bezierDistance sqrtf p1 p2 * 0.45 * 0.3),
          0.15 * bezierDistance sqrtf p1 p2 + 10⟩,
        p2 + ⟨-max 80 (bezierDistance sqrtf p1 p2 * 0.45 * 0.3),
          0.15 * bezierDistance sqrtf p1 p2 + 10⟩) := by
  unfold smart_bezier bezierDistance
  simp only []
  rw [if_pos h]

/-- The second branch of `smart_bezier`. -/
theorem smart_bezier_forward {F : Type} [LinearOrderedField F] (sqrtf : F → F)
    (p1 p2 : ImVec2 F) (h : p2.x ≥ p1.x) :
    smart_bezier sqrtf p1 p2 =
      (p1 + ⟨bezierDistance sqrtf p1 p2 * 0.45, 0⟩,
        p2 - ⟨bezierDistance sqrtf p1 p2 * 0.45, 0⟩) := by
  have hnot : ¬ (p1.x - p2.x > |p2.y - p1.y| ∧ |p2.y - p1.y| < 60) := by
    rintro ⟨h1, _⟩
    have h2 : (0 : F) ≤ |p2.y - p1.y| := abs_nonneg _
    have h3 : p1.x - p2.x ≤ 0 := sub_nonpos.2 h
    exact absurd (lt_of_lt_of_le h1 h3) (not_lt.2 h2)
  unfold smart_bezier bezierDistance
  simp only []
  rw [if_neg hnot, if_pos h]

/-- C13 (as stated, refuted): for `p1 = (0,0)` and `p2 = (300,10)` the horizontal separation
300 exceeds the vertical separation 10, which is below 60, and yet, whatever `sqrtf`
returns, `smart_bezier` gives both control points the vertical offset 0 from their
endpoints, which is not `0.15 * distance + 10` for any distance that is not negative. -/
theorem C13_counterexample :
    (|(300 : ℚ) - 0| > |(10 : ℚ) - 0| ∧ |(10 : ℚ) - 0| < 60) ∧
    (∀ sqrtf : ℚ → ℚ,
      (smart_bezier sqrtf ⟨0, 0⟩ ⟨300, 10⟩).1.y - 0 = 0 ∧
      (smart_bezier sqrtf ⟨0, 0⟩ ⟨300, 10⟩).2.y - 10 = 0 ∧
      (0 ≤ bezierDistance sqrtf ⟨0, 0⟩ ⟨300, 10⟩ →
        (smart_bezier sqrtf ⟨0, 0⟩ ⟨300, 10⟩).1.y - 0 ≠
          0.15 * bezierDistance sqrtf ⟨0, 0⟩ ⟨300, 10⟩ + 10)) := by
  refine ⟨by norm_num, ?_⟩
  intro sqrtf
  have h := smart_bezier_forward sqrtf (⟨0, 0⟩ : ImVec2 ℚ) ⟨300, 10⟩ (by norm_num)
  rw [h]
  simp only [ImVec2.add_def, ImVec2.sub_def]
  refine ⟨by norm_num, by norm_num, ?_⟩
  intro hd hne
  norm_num at hne
  linarith

theorem exactArith_lit {F : Type} [LinearOrderedField F] :
    (((0.45 : ℚ) : F) = 0.45) ∧ (((80 : ℚ) : F) = 80) ∧ (((0 : ℚ) : F) = 0) ∧
    (((60 : ℚ) : F) = 60) ∧ (((0.15 : ℚ) : F) = 0.15) ∧ (((10 : ℚ) : F) = 10) ∧
    (((0.3 : ℚ) : F) = 0.3) ∧ (((0.35 : ℚ) : F) = 0.35) ∧ (((30 : ℚ) : F) = 30) ∧
    (((0.4 : ℚ) : F) = 0.4) ∧ (((40 : ℚ) : F) = 40) := by
  refine ⟨?_, ?_, ?_, ?_, ?_, ?_, ?_, ?_, ?_, ?_, ?_⟩ <;> norm_num

/-- The embedding in exact arithmetic is the embedding over the operations of `float` at
the operations that do not round. -/
theorem smart_bezier_exactArith {F : Type} [LinearOrderedField F] (sqrtf : F → F)
    (p1 p2 : ImVec2 F) :
    smart_bezier sqrtf p1 p2 = (exactArith sqrtf).smart_bezier p1 p2 := by
  obtain ⟨h1, h2, h3, h4, h5, h6, h7, h8, h9, h10, h11⟩ := @exactArith_lit F _
  unfold smart_bezier FloatArith.smart_bezier
  simp only [exactArith, FloatArith.vadd, FloatArith.vsub, h1, h2, h3, h4, h5, h6, h7, h8, h9,
    h10, h11, Bool.and_eq_true, decide_eq_true_eq]
  rfl

/-- The first branch of `smart_bezier` over the operations of `float`. -/
theorem FloatArith.side_branch {F : Type} (A : FloatArith F) (p1 p2 : ImVec2 F)
    (h1 : A.gt (A.horizontalDist p1 p2) (A.verticalDist p1 p2) = true)
    (h2 : A.lt (A.verticalDist p1 p2) (A.lit 60) = true) :
    A.smart_bezier p1 p2 =
      (⟨A.add p1.x (A.sideRightward p1 p2), A.add p1.y (A.sideVert p1 p2)⟩,
        ⟨A.add p2.x (A.neg (A.sideRightward p1 p2)), A.add p2.y (A.sideVert p1 p2)⟩) := by
  have h : (A.gt (A.sub p1.x p2.x) (A.fabsf (A.sub p2.y p1.y)) &&
      A.lt (A.fabsf (A.sub p2.y p1.y)) (A.lit 60)) = true := by
    rw [Bool.and_eq_true]
    exact ⟨h1, h2⟩
  unfold FloatArith.smart_bezier
  simp only []
  rw [if_pos h]
  rfl

/-- The second branch of `smart_bezier` over the operations of `float`. -/
theorem FloatArith.forward_branch {F : Type} (A : FloatArith F) (p1 p2 : ImVec2 F)
    (h1 : (A.gt (A.horizontalDist p1 p2) (A.verticalDist p1 p2) &&
      A.lt (A.verticalDist p1 p2) (A.lit 60)) = false)
    (h2 : A.ge p2.x p1.x = true) :
    A.smart_bezier p1 p2 =
      (⟨A.add p1.x (A.mul (A.distance p1 p2) (A.lit 0.45)), A.add p1.y (A.lit 0)⟩,
        ⟨A.sub p2.x (A.mul (A.distance p1 p2) (A.lit 0.45)), A.sub p2.y (A.lit 0)⟩) := by
  have h : ¬ ((A.gt (A.sub p1.x p2.x) (A.fabsf (A.sub p2.y p1.y)) &&
      A.lt (A.fabsf (A.sub p2.y p1.y)) (A.lit 60)) = true) := by
    intro h
    have h3 : (A.gt (A.sub p1.x p2.x) (A.fabsf (A.sub p2.y p1.y)) &&
      A.lt (A.fabsf (A.sub p2.y p1.y)) (A.lit 60)) = false := h1
    rw [h] at h3
    cases h3
  unfold FloatArith.smart_bezier
  simp only []
  rw [if_neg h, if_pos h2]
  rfl

theorem sample_side_test :
    (exactArith sampleSqrt).gt ((exactArith sampleSqrt).horizontalDist ⟨300, 10⟩ ⟨0, 0⟩)
      ((exactArith sampleSqrt).verticalDist ⟨300, 10⟩ ⟨0, 0⟩) = true ∧
    (exactArith sampleSqrt).lt ((exactArith sampleSqrt).verticalDist ⟨300, 10⟩ ⟨0, 0⟩)
      ((exactArith sampleSqrt).lit 60) = true := by
  simp only [exactArith, FloatArith.horizontalDist, FloatArith.verticalDist, decide_eq_true_eq]
  norm_num

/-- C13 (amended): over the operations of `float`, when the signed difference
`horizontalDist = p1.x - p2.x` that `smart_bezier` computes exceeds the vertical separation
`verticalDist = fabsf(p2.y - p1.y)` that it computes, and `verticalDist` is below 60,
`smart_bezier` adds the same value `0.15f * distance + 10.0f` to the y coordinate of both
endpoints to get the control points, the first one `fmaxf(80, delta * 0.3f)` to the right
of `p1` and the second one as far to the left of `p2`. When that test fails and
`p2.x >= p1.x`, both control points have the vertical offset 0; this is the case of
`p1 = (0,0)`, `p2 = (300,10)`, where no operation rounds, whatever `sqrtf` returns. -/
theorem C13_side_by_side_regime {F : Type} (A : FloatArith F) (p1 p2 : ImVec2 F) :
    (A.gt (A.horizontalDist p1 p2) (A.verticalDist p1 p2) = true →
      A.lt (A.verticalDist p1 p2) (A.lit 60) = true →
      (A.smart_bezier p1 p2).1.y = A.add p1.y (A.sideVert p1 p2) ∧
      (A.smart_bezier p1 p2).2.y = A.add p2.y (A.sideVert p1 p2) ∧
      (A.smart_bezier p1 p2).1.x = A.add p1.x (A.sideRightward p1 p2) ∧
      (A.smart_bezier p1 p2).2.x = A.add p2.x (A.neg (A.sideRightward p1 p2))) ∧
    ((A.gt (A.horizontalDist p1 p2) (A.verticalDist p1 p2) &&
        A.lt (A.verticalDist p1 p2) (A.lit 60)) = false →
      A.ge p2.x p1.x = true →
      (A.smart_bezier p1 p2).1.y = A.add p1.y (A.lit 0) ∧
      (A.smart_bezier p1 p2).2.y = A.sub p2.y (A.lit 0)) ∧
    (∀ sqrtf : ℚ → ℚ,
      ((exactArith sqrtf).gt ((exactArith sqrtf).horizontalDist ⟨0, 0⟩ ⟨300, 10⟩)
        ((exactArith sqrtf).verticalDist ⟨0, 0⟩ ⟨300, 10⟩) = false) ∧
      (exactArith sqrtf).ge (300 : ℚ) 0 = true ∧
      ((exactArith sqrtf).smart_bezier ⟨0, 0⟩ ⟨300, 10⟩).1.y = 0 ∧
      ((exactArith sqrtf).smart_bezier ⟨0, 0⟩ ⟨300, 10⟩).2.y = 10) := by
  refine ⟨?_, ?_, ?_⟩
  · intro h1 h2
    rw [FloatArith.side_branch A p1 p2 h1 h2]
    exact ⟨rfl, rfl, rfl, rfl⟩
  · intro h1 h2
    rw [FloatArith.forward_branch A p1 p2 h1 h2]
    exact ⟨rfl, rfl⟩
  · intro sqrtf
    have hgt : (exactArith sqrtf).gt ((exactArith sqrtf).horizontalDist ⟨0, 0⟩ ⟨300, 10⟩)
        ((exactArith sqrtf).verticalDist ⟨0, 0⟩ ⟨300, 10⟩) = false := by
      simp only [exactArith, FloatArith.horizontalDist, FloatArith.verticalDist,
        decide_eq_false_iff_not]
      norm_num
    have hge : (exactArith sqrtf).ge (300 : ℚ) 0 = true := by
      simp only [exactArith, decide_eq_true_eq]
      norm_num
    have htest : ((exactArith sqrtf).gt ((exactArith sqrtf).horizontalDist ⟨0, 0⟩ ⟨300, 10⟩)
        ((exactArith sqrtf).verticalDist ⟨0, 0⟩ ⟨300, 10⟩) &&
        (exactArith sqrtf).lt ((exactArith sqrtf).verticalDist ⟨0, 0⟩ ⟨300, 10⟩)
          ((exactArith sqrtf).lit 60)) = false := by
      rw [hgt]; rfl
    refine ⟨hgt, hge, ?_⟩
    rw [FloatArith.forward_branch (exactArith sqrtf) ⟨0, 0⟩ ⟨300, 10⟩ htest hge]
    simp only [exactArith]
    norm_num

/-- Witness of the amended C13: `p1 = (300,10)`, `p2 = (0,0)` passes the side-by-side
test. -/
theorem C13_side_by_side_regime_witness :
    ((exactArith sampleSqrt).smart_bezier ⟨300, 10⟩ ⟨0, 0⟩).1.y =
      (exactArith sampleSqrt).add 10 ((exactArith sampleSqrt).sideVert ⟨300, 10⟩ ⟨0, 0⟩) ∧
    ((exactArith sampleSqrt).smart_bezier ⟨300, 10⟩ ⟨0, 0⟩).2.y =
      (exactArith sampleSqrt).add 0 ((exactArith sampleSqrt).sideVert ⟨300, 10⟩ ⟨0, 0⟩) :=
  have h := (C13_side_by_side_regime (exactArith sampleSqrt) ⟨300, 10⟩ ⟨0, 0⟩).1
    sample_side_test.1 sample_side_test.2
  ⟨h.1, h.2.1⟩

/-- C14 (as stated, refuted): for `p1 = (300,0)` and `p2 = (0,0)`, whatever `sqrtf` returns,
the second control point of `smart_bezier` has an x coordinate of at most -80, left of
`p2.x = 0`, so it does not lie between 0 and 380; with an exact square root the control
points are (380, 55) and (-80, 55). -/
theorem C14_counterexample :
    (∀ sqrtf : ℚ → ℚ,
      ¬ (0 ≤ (smart_bezier sqrtf ⟨300, 0⟩ ⟨0, 0⟩).2.x ∧
        (smart_bezier sqrtf ⟨300, 0⟩ ⟨0, 0⟩).2.x ≤ 380)) ∧
    smart_bezier sampleSqrt (⟨300, 0⟩ : ImVec2 ℚ) ⟨0, 0⟩ = (⟨380, 55⟩, ⟨-80, 55⟩) := by
  have hside : ((300 : ℚ) - 0 > |(0 : ℚ) - 0| ∧ |(0 : ℚ) - 0| < 60) := by norm_num
  constructor
  · intro sqrtf
    rw [smart_bezier_side sqrtf (⟨300, 0⟩ : ImVec2 ℚ) ⟨0, 0⟩ hside]
    simp only [ImVec2.add_def]
    rintro ⟨h1, _⟩
    have h2 : (80 : ℚ) ≤ max 80 (bezierDistance sqrtf ⟨300, 0⟩ ⟨0, 0⟩ * 0.45 * 0.3) :=
      le_max_left _ _
    linarith
  · have hs : sampleSqrt 90000 = 300 := by
      have : Nat.sqrt 90000 = 300 := by
        rw [show (90000 : ℕ) = 300 * 300 by norm_num, Nat.sqrt_eq]
      simp [sampleSqrt, this]
    have hd : bezierDistance sampleSqrt (⟨300, 0⟩ : ImVec2 ℚ) ⟨0, 0⟩ = 300 := by
      unfold bezierDistance
      norm_num
      exact hs
    rw [smart_bezier_side sampleSqrt (⟨300, 0⟩ : ImVec2 ℚ) ⟨0, 0⟩ hside, hd]
    simp only [ImVec2.add_def]
    norm_num

/-- C14 (amended): for `p1 = (300,0)` and `p2 = (0,0)` `smart_bezier` takes its first
branch: with `r = max(80, 0.3 * 0.45 * distance)`, which is at least `minRight = 80`, the
first control point lies `r` to the right of `p1` and the second one `r` to the left of
`p2`, both raised by `0.15 * distance + 10`; when `sqrtf` gives the distance 300 they are
(380, 55) and (-80, 55). -/
theorem C14_leftward_sample {F : Type} [LinearOrderedField F] (sqrtf : F → F) :
    smart_bezier sqrtf (⟨300, 0⟩ : ImVec2 F) ⟨0, 0⟩ =
      (⟨300 + max 80 (bezierDistance sqrtf ⟨300, 0⟩ ⟨0, 0⟩ * 0.45 * 0.3),
          0 + (0.15 * bezierDistance sqrtf ⟨300, 0⟩ ⟨0, 0⟩ + 10)⟩,
        ⟨0 + -max 80 (bezierDistance sqrtf ⟨300, 0⟩ ⟨0, 0⟩ * 0.45 * 0.3),
          0 + (0.15 * bezierDistance sqrtf ⟨300, 0⟩ ⟨0, 0⟩ + 10)⟩) ∧
    (80 : F) ≤ max 80 (bezierDistance sqrtf ⟨300, 0⟩ ⟨0, 0⟩ * 0.45 * 0.3) ∧
    bezierDistance sqrtf (⟨300, 0⟩ : ImVec2 F) ⟨0, 0⟩ = sqrtf 90000 ∧
    (sqrtf 90000 = 300 →
      smart_bezier sqrtf (⟨300, 0⟩ : ImVec2 F) ⟨0, 0⟩ = (⟨380, 55⟩, ⟨-80, 55⟩)) := by
  have hside : ((300 : F) - 0 > |(0 : F) - 0| ∧ |(0 : F) - 0| < 60) := by norm_num
  have hd : bezierDistance sqrtf (⟨300, 0⟩ : ImVec2 F) ⟨0, 0⟩ = sqrtf 90000 := by
    unfold bezierDistance
    norm_num
  refine ⟨?_, le_max_left _ _, hd, ?_⟩
  · rw [smart_bezier_side sqrtf (⟨300, 0⟩ : ImVec2 F) ⟨0, 0⟩ hside]
    rfl
  · intro hs
    rw [smart_bezier_side sqrtf (⟨300, 0⟩ : ImVec2 F) ⟨0, 0⟩ hside, hd, hs]
    simp only [ImVec2.add_def]
    norm_num

theorem sampleSqrt_leftward : sampleSqrt 90000 = 300 := by
  have h : Nat.sqrt 90000 = 300 := by
    rw [show (90000 : ℕ) = 300 * 300 by norm_num, Nat.sqrt_eq]
  simp [sampleSqrt, h]

/-- Witness of the amended C14 on the rationals, with the sample square root. -/
theorem C14_leftward_sample_witness :
    smart_bezier sampleSqrt (⟨300, 0⟩ : ImVec2 ℚ) ⟨0, 0⟩ = (⟨380, 55⟩, ⟨-80, 55⟩) :=
  (C14_leftward_sample sampleSqrt).2.2.2 sampleSqrt_leftward

theorem samplePow_two (x : ℚ) : samplePow x 2 = x * x := by
  unfold samplePow
  have h : ((2 : ℚ).num).toNat = 2 := by
    rw [Rat.num_ofNat]
    rfl
  rw [h, pow_two]

theorem sampleSqrt_sample : sampleSqrt 40000 = 200 := by
  have h : Nat.sqrt 40000 = 200 := by
    rw [show (40000 : ℕ) = 200 * 200 by norm_num, Nat.sqrt_eq]
  simp [sampleSqrt, h]

/-! ## Hit test of the connector curve -/

theorem collider_points_sample {F : Type} [LinearOrderedField F] (sqrt : F → F)
    (pow : F → F → F) (hpow : ∀ x, pow x 2 = x * x) (hsqrt : sqrt 40000 = 200) :
    smart_bezier_collider_points sqrt pow (⟨0, 0⟩ : ImVec2 F) ⟨200, 0⟩ =
      (⟨90, 0⟩, ⟨110, 0⟩) := by
  have hd : sqrt (pow ((200 : F) - 0) 2 + pow ((0 : F) - 0) 2) = 200 := by
    rw [hpow, hpow]
    norm_num
    exact hsqrt
  have h1 : ¬ ((200 : F) < 0) := by norm_num
  have h2 : ¬ ((200 : F) < 0 - 50) := by norm_num
  unfold smart_bezier_collider_points
  simp only []
  rw [if_neg h1, if_neg h2, hd]
  simp only [ImVec2.add_def, ImVec2.sub_def]
  norm_num

theorem sample_curve_x {F : Type} [LinearOrderedField F] (t : F) (h0 : 0 ≤ t) (h1 : t ≤ 1) :
    0 ≤ (ImCubicBezier (⟨0, 0⟩ : ImVec2 F) ⟨90, 0⟩ ⟨110, 0⟩ ⟨200, 0⟩ t).x ∧
    (ImCubicBezier (⟨0, 0⟩ : ImVec2 F) ⟨90, 0⟩ ⟨110, 0⟩ ⟨200, 0⟩ t).x ≤ 200 ∧
    (ImCubicBezier (⟨0, 0⟩ : ImVec2 F) ⟨90, 0⟩ ⟨110, 0⟩ ⟨200, 0⟩ t).y = 0 := by
  have hs : 0 ≤ 1 - t := sub_nonneg.2 h1
  have a1 : 0 ≤ (1 - t) ^ 2 * t := mul_nonneg (pow_nonneg hs 2) h0
  have a2 : 0 ≤ (1 - t) * t ^ 2 := mul_nonneg hs (pow_nonneg h0 2)
  have a3 : 0 ≤ t ^ 3 := pow_nonneg h0 3
  have a4 : 0 ≤ (1 - t) ^ 3 := pow_nonneg hs 3
  have hx : (ImCubicBezier (⟨0, 0⟩ : ImVec2 F) ⟨90, 0⟩ ⟨110, 0⟩ ⟨200, 0⟩ t).x =
      270 * ((1 - t) ^ 2 * t) + 330 * ((1 - t) * t ^ 2) + 200 * t ^ 3 := by
    simp only [ImCubicBezier]
    ring
  have hup : (200 : F) - (270 * ((1 - t) ^ 2 * t) + 330 * ((1 - t) * t ^ 2) + 200 * t ^ 3) =
      200 * (1 - t) ^ 3 + 330 * ((1 - t) ^ 2 * t) + 270 * ((1 - t) * t ^ 2) := by
    ring
  refine ⟨?_, ?_, ?_⟩
  · rw [hx]; positivity
  · rw [hx]
    have : 0 ≤ (200 : F) - (270 * ((1 - t) ^ 2 * t) + 330 * ((1 - t) * t ^ 2) + 200 * t ^ 3) := by
      rw [hup]; positivity
    linarith
  · simp only [ImCubicBezier]
    ring

theorem far_from_segment {F : Type} [LinearOrderedField F] (px py x : F)
    (h1 : 500 * 500 ≤ (px - 0) * (px - 0) + (py - 0) * (py - 0))
    (h2 : 500 * 500 ≤ (px - 200) * (px - 200) + (py - 0) * (py - 0))
    (hx0 : 0 ≤ x) (hx1 : x ≤ 200) :
    (5 : F) * 5 ≤ (px - x) * (px - x) + (py - 0) * (py - 0) := by
  have hx2 : 0 ≤ 200 - x := sub_nonneg.2 hx1
  have hprod : x * (200 - x) ≤ 10000 := by nlinarith [sq_nonneg (x - 100)]
  by_cases hpx : px ≤ 100
  · have : 0 ≤ x * (100 - px) := mul_nonneg hx0 (sub_nonneg.2 hpx)
    nlinarith
  · have hpx1 : 0 ≤ px - 100 := le_of_lt (sub_pos.2 (not_le.1 hpx))
    have : 0 ≤ (200 - x) * (px - 100) := mul_nonneg hx2 hpx1
    nlinarith

/-- C15: for `p1 = (0,0)`, `p2 = (200,0)` and radius 5, with `pow(x, 2) = x * x` and
`sqrt(40000) = 200`, `smart_bezier_collider` builds the cubic with control points (90,0)
and (110,0), which passes through (100,0) at `t = 1/2`; it returns true for the midpoint
(100,0), and false for every point at least 500 away from both endpoints, since the
curve stays on the segment from `p1` to `p2`. -/
theorem C15_collider_sample {F : Type} [LinearOrderedField F] (sqrt : F → F)
    (pow : F → F → F) (hpow : ∀ x, pow x 2 = x * x) (hsqrt : sqrt 40000 = 200) :
    smart_bezier_collider_points sqrt pow (⟨0, 0⟩ : ImVec2 F) ⟨200, 0⟩ =
      (⟨90, 0⟩, ⟨110, 0⟩) ∧
    ImCubicBezier (⟨0, 0⟩ : ImVec2 F) ⟨90, 0⟩ ⟨110, 0⟩ ⟨200, 0⟩ (1 / 2) = ⟨100, 0⟩ ∧
    smart_bezier_collider sqrt pow ⟨100, 0⟩ ⟨0, 0⟩ ⟨200, 0⟩ 5 ∧
    (∀ p : ImVec2 F, 500 * 500 ≤ distSq p ⟨0, 0⟩ → 500 * 500 ≤ distSq p ⟨200, 0⟩ →
      ¬ smart_bezier_collider sqrt pow p ⟨0, 0⟩ ⟨200, 0⟩ 5) := by
  have hpts := collider_points_sample sqrt pow hpow hsqrt
  have hmid : ImCubicBezier (⟨0, 0⟩ : ImVec2 F) ⟨90, 0⟩ ⟨110, 0⟩ ⟨200, 0⟩ (1 / 2) =
      ⟨100, 0⟩ := by
    simp only [ImCubicBezier]
    norm_num
  refine ⟨hpts, hmid, ?_, ?_⟩
  · unfold smart_bezier_collider projectsWithin
    rw [hpts]
    refine ⟨by norm_num, 1 / 2, by norm_num, by norm_num, ?_⟩
    rw [hmid]
    simp only [distSq]
    norm_num
  · intro p h1 h2 hhit
    unfold smart_bezier_collider projectsWithin at hhit
    rw [hpts] at hhit
    obtain ⟨_, t, ht0, ht1, hlt⟩ := hhit
    obtain ⟨hx0, hx1, hy⟩ := sample_curve_x t ht0 ht1
    simp only [distSq] at h1 h2 hlt
    rw [hy] at hlt
    have := far_from_segment p.x p.y _ h1 h2 hx0 hx1
    exact absurd hlt (not_lt.2 this)

/-- Witness of C15 on the rationals, with the sample square root and power. -/
theorem C15_collider_sample_witness :
    smart_bezier_collider sampleSqrt samplePow (⟨100, 0⟩ : ImVec2 ℚ) ⟨0, 0⟩ ⟨200, 0⟩ 5 :=
  (C15_collider_sample sampleSqrt samplePow samplePow_two sampleSqrt_sample).2.2.1

end ImFlow
